import Mathlib

/-!
# Squad Bot — verification of the orchestration engine

A shallow embedding of the Squad Bot engine and proofs about it.

Two variants of the engine exist in the repository and are embedded in two
namespaces:

* `SquadBot` — the single-squad engine (`src/models.py`, `src/database.py`,
  `src/orchestrator.py`).
* `SquadServer` — the multi-squad engine (`src/squad-server/models.py`,
  `src/squad-server/database.py`, `src/squad-server/orchestrator.py`),
  where every table carries a `squad_id` column and the orchestrator
  operations take a `squad_id` argument.

Modelling conventions, identical in both namespaces:

* SQLite tables become Lean lists kept in insertion order; `INSERT` is an
  append, `UPDATE ... WHERE` is a `List.map` guarded on the key,
  `SELECT ... WHERE` is a `List.filter`/`List.find?`, `ORDER BY` is an
  insertion sort, and `SELECT MAX(version)` is a fold with `Nat.max`
  (SQL `NULL` becoming `0` through the code's `or 0`).
* `uuid.uuid4()` identifiers become naturals drawn from a `nextId` counter
  held by the orchestrator state: the model captures exactly the freshness
  the code relies on.  The literal sender id `"orchestrator"` becomes the
  dedicated constructor `SenderId.orchestrator`.
* `datetime.now(...)` timestamps become a `now : Nat` field of the state.
  No claim depends on clock readings (the code contains no time-driven
  transition), so the clock is simply carried along.
* Python truthiness tests on lists (`if human_rejections:`) become `≠ []`,
  and the float comparison `approvals > total_eligible / 2` (true division)
  becomes the exact integer equivalent `2 * approvals > total_eligible`.
* `_broadcast` appends the event to an `events` log; the listener fan-out
  itself is I/O outside the engine state.
* Announcement `Message` contents keep the interpolated data but drop the
  source's emoji/markdown decoration; no claim depends on message text.
-/

namespace SquadBot

/-- `src/models.py` `SquadMember`. -/
structure SquadMember where
  id : Nat
  name : String
  model : String
  joinedAt : Nat
  isActive : Bool
deriving DecidableEq, Repr

/-- The `sender_id`/`proposed_by` column: a member id or the literal
string `"orchestrator"`. -/
inductive SenderId where
  | member (id : Nat)
  | orchestrator
deriving DecidableEq, Repr

/-- `src/models.py` `Message`. -/
structure Message where
  id : Nat
  senderId : SenderId
  senderName : String
  senderType : String
  content : String
  timestamp : Nat
  replyTo : Option Nat
deriving DecidableEq, Repr

/-- `src/models.py` `ContextEntry`. -/
structure ContextEntry where
  id : Nat
  content : String
  committedAt : Nat
  committedBy : String
  origin : String
  commitId : Nat
  version : Nat
deriving DecidableEq, Repr

/-- `src/models.py` `CommitProposal`. -/
structure CommitProposal where
  id : Nat
  content : String
  proposedBy : SenderId
  proposedByName : String
  origin : String
  status : String
  createdAt : Nat
  resolvedAt : Option Nat
  consensusMode : String
  timeoutSeconds : Nat
deriving DecidableEq, Repr

/-- `src/models.py` `Vote`. -/
structure Vote where
  id : Nat
  commitId : Nat
  voterId : Nat
  voterName : String
  choice : String
  isHumanOverride : Bool
  votedAt : Nat
deriving DecidableEq, Repr

/-- `src/database.py` `SquadDatabase`: the five tables, each a list in
insertion order. -/
structure SquadDatabase where
  members : List SquadMember
  messages : List Message
  contextEntries : List ContextEntry
  commits : List CommitProposal
  votes : List Vote
deriving DecidableEq, Repr

/-- `add_member`: `INSERT OR REPLACE` on the primary key `id`. -/
def addMember (db : SquadDatabase) (m : SquadMember) : SquadDatabase :=
  { db with members := db.members.filter (fun x => x.id != m.id) ++ [m] }

/-- `remove_member`: `UPDATE members SET is_active = 0 WHERE id = ?`. -/
def removeMember (db : SquadDatabase) (memberId : Nat) : SquadDatabase :=
  { db with members :=
      db.members.map (fun x => if x.id = memberId then { x with isActive := false } else x) }

/-- `get_member_by_name`: first row with this name that is active. -/
def getMemberByName (db : SquadDatabase) (name : String) : Option SquadMember :=
  (db.members.filter (fun m => m.name == name && m.isActive)).head?

/-- `get_active_members`. -/
def getActiveMembers (db : SquadDatabase) : List SquadMember :=
  db.members.filter (fun m => m.isActive)

/-- `add_message`: plain `INSERT`. -/
def addMessage (db : SquadDatabase) (msg : Message) : SquadDatabase :=
  { db with messages := db.messages ++ [msg] }

/-- `SELECT MAX(version) FROM context_entries`, with `NULL` read as `0`
(the code's `row["max_v"] or 0`). -/
def maxVersion (db : SquadDatabase) : Nat :=
  (db.contextEntries.map (fun e => e.version)).foldr Nat.max 0

/-- `add_context_entry`: assign `version = MAX(version)+1`, then insert.
Returns the stored entry, as the code does. -/
def addContextEntry (db : SquadDatabase) (entry : ContextEntry) :
    ContextEntry × SquadDatabase :=
  let stored := { entry with version := maxVersion db + 1 }
  (stored, { db with contextEntries := db.contextEntries ++ [stored] })

/-- `get_context`: `SELECT * FROM context_entries ORDER BY version ASC`. -/
def getContext (db : SquadDatabase) : List ContextEntry :=
  db.contextEntries.insertionSort (fun a b => a.version ≤ b.version)

/-- `get_context_version`. -/
def getContextVersion (db : SquadDatabase) : Nat :=
  maxVersion db

/-- `add_commit`: plain `INSERT`. -/
def addCommit (db : SquadDatabase) (c : CommitProposal) : SquadDatabase :=
  { db with commits := db.commits ++ [c] }

/-- `update_commit_status`: `UPDATE commit_proposals SET status, resolved_at
WHERE id = ?`. -/
def updateCommitStatus (db : SquadDatabase) (commitId : Nat) (status : String)
    (resolvedAt : Option Nat) : SquadDatabase :=
  { db with commits := db.commits.map (fun c =>
      if c.id = commitId then { c with status := status, resolvedAt := resolvedAt } else c) }

/-- `get_commit`: `SELECT * FROM commit_proposals WHERE id = ?`, one row. -/
def getCommit (db : SquadDatabase) (commitId : Nat) : Option CommitProposal :=
  db.commits.find? (fun c => c.id == commitId)

/-- `add_vote`: `INSERT OR REPLACE` under the primary key `id` and the
`UNIQUE(commit_id, voter_id)` constraint — a re-vote deletes the old row. -/
def addVote (db : SquadDatabase) (v : Vote) : SquadDatabase :=
  { db with votes := db.votes.filter (fun w =>
      w.id != v.id && !(w.commitId == v.commitId && w.voterId == v.voterId)) ++ [v] }

/-- `get_votes_for_commit`. -/
def getVotesForCommit (db : SquadDatabase) (commitId : Nat) : List Vote :=
  db.votes.filter (fun v => v.commitId == commitId)

/-- Payload of a `_broadcast` call (`src/orchestrator.py`). -/
inductive EventData where
  | memberJoined (m : SquadMember)
  | memberLeft (name : String) (id : Nat)
  | newMessage (msg : Message)
  | commitProposed (p : CommitProposal)
  | voteCast (v : Vote)
  | commitResolved (commitId : Nat) (status : String)
  | contextUpdated (e : ContextEntry)
deriving DecidableEq, Repr

/-- One broadcast event `{type, data, timestamp}`. -/
structure Event where
  type : String
  data : EventData
  timestamp : Nat
deriving DecidableEq, Repr

/-- `Orchestrator` state: the database, the constructor's consensus mode,
the log of broadcast events, plus the fresh-id supply and the clock. -/
structure Orchestrator where
  db : SquadDatabase
  consensusMode : String
  events : List Event
  nextId : Nat
  now : Nat
deriving DecidableEq, Repr

/-- `Orchestrator(db, consensus_mode)` over an empty database. -/
def initOrchestrator (mode : String) : Orchestrator :=
  { db := ⟨[], [], [], [], []⟩, consensusMode := mode, events := [], nextId := 0, now := 0 }

/-- `self._broadcast(event_type, data)`: append to the event log. -/
def broadcast (o : Orchestrator) (type : String) (data : EventData) : Orchestrator :=
  { o with events := o.events ++ [⟨type, data, o.now⟩] }

/-- Create a `Message` (drawing a fresh id for it) and `db.add_message` it. -/
def pushMessage (o : Orchestrator) (senderId : SenderId)
    (senderName senderType content : String) (replyTo : Option Nat) :
    Message × Orchestrator :=
  let msg : Message :=
    ⟨o.nextId, senderId, senderName, senderType, content, o.now, replyTo⟩
  (msg, { o with nextId := o.nextId + 1, db := addMessage o.db msg })

/-- Result of an engine call: the `{"success": false, "error": ...}` dict or
the success payload. -/
inductive CallResult (α : Type) where
  | err (msg : String)
  | ok (val : α)
deriving DecidableEq, Repr

/-- The dict `_evaluate_consensus` returns: either a resolution
`{status, reason}` or the pending progress snapshot. -/
inductive ConsensusResult where
  | decided (status : String) (reason : String)
  | pending (votesIn votesNeeded approvals rejections : Nat)
deriving DecidableEq, Repr

/-- `join(name, model)`. -/
def join (o : Orchestrator) (name : String) (model : String) :
    CallResult SquadMember × Orchestrator :=
  match getMemberByName o.db name with
  | some _ => (.err s!"{name} is already in the squad", o)
  | none =>
    let m : SquadMember := ⟨o.nextId, name, model, o.now, true⟩
    let o := { o with nextId := o.nextId + 1, db := addMember o.db m }
    let (sysMsg, o) := pushMessage o .orchestrator "Squad Bot" "system"
      s!"**{name}** joined the squad (using {model})" none
    let o := broadcast o "member_joined" (.memberJoined m)
    let o := broadcast o "new_message" (.newMessage sysMsg)
    (.ok m, o)

/-- `leave(name)`. -/
def leave (o : Orchestrator) (name : String) : CallResult Unit × Orchestrator :=
  match getMemberByName o.db name with
  | none => (.err s!"{name} is not in the squad", o)
  | some member =>
    let o := { o with db := removeMember o.db member.id }
    let (sysMsg, o) := pushMessage o .orchestrator "Squad Bot" "system"
      s!"**{name}** left the squad" none
    let o := broadcast o "member_left" (.memberLeft name member.id)
    let o := broadcast o "new_message" (.newMessage sysMsg)
    (.ok (), o)

/-- `send_message(sender_name, content, sender_type, reply_to)`. -/
def sendMessage (o : Orchestrator) (senderName content senderType : String)
    (replyTo : Option Nat) : CallResult Nat × Orchestrator :=
  match getMemberByName o.db senderName with
  | none => (.err s!"{senderName} is not in the squad. Join first.", o)
  | some member =>
    let (msg, o) := pushMessage o (.member member.id) senderName senderType content replyTo
    let o := broadcast o "new_message" (.newMessage msg)
    (.ok msg.id, o)

/-- `propose_commit(proposer_name, content, origin)`. -/
def proposeCommit (o : Orchestrator) (proposerName content origin : String) :
    CallResult Nat × Orchestrator :=
  let member? := getMemberByName o.db proposerName
  if member?.isNone ∧ origin ≠ "orchestrator_detected" then
    (.err s!"{proposerName} is not in the squad", o)
  else
    let proposal : CommitProposal :=
      { id := o.nextId
        content := content
        proposedBy := match member? with
          | some m => .member m.id
          | none => .orchestrator
        proposedByName := if member?.isSome then proposerName else "Squad Bot"
        origin := origin
        status := "pending"
        createdAt := o.now
        resolvedAt := none
        consensusMode := o.consensusMode
        timeoutSeconds := 300 }
    let o := { o with nextId := o.nextId + 1, db := addCommit o.db proposal }
    let announcement :=
      if origin = "agent_nominated" then
        s!"**{proposerName}** proposes to commit: {content}"
      else
        s!"**Squad Bot** detected convergence: {content}"
    let (sysMsg, o) := pushMessage o .orchestrator "Squad Bot" "orchestrator" announcement none
    let o := broadcast o "new_message" (.newMessage sysMsg)
    let o := broadcast o "commit_proposed" (.commitProposed proposal)
    (.ok proposal.id, o)

/-- `_resolve_commit(commit_id, status, announcement)`. -/
def resolveCommit (o : Orchestrator) (commitId : Nat) (status announcement : String) :
    Orchestrator :=
  let o := { o with db := updateCommitStatus o.db commitId status (some o.now) }
  let (sysMsg, o) := pushMessage o .orchestrator "Squad Bot" "orchestrator" announcement none
  let o := broadcast o "new_message" (.newMessage sysMsg)
  broadcast o "commit_resolved" (.commitResolved commitId status)

/-- `_commit_to_context(proposal)`: append the ledger entry, then resolve the
proposal `approved`, then broadcast `context_updated`. -/
def commitToContext (o : Orchestrator) (proposal : CommitProposal) : Orchestrator :=
  let entry0 : ContextEntry :=
    ⟨o.nextId, proposal.content, o.now, proposal.proposedByName, proposal.origin,
      proposal.id, 0⟩
  let o := { o with nextId := o.nextId + 1 }
  let (entry, db) := addContextEntry o.db entry0
  let o := { o with db := db }
  let o := resolveCommit o proposal.id "approved"
    s!"Committed to context (v{entry.version}): {proposal.content}"
  broadcast o "context_updated" (.contextUpdated entry)

/-- `_evaluate_consensus(commit_id)`.  Every caller in the source checks that
the proposal exists first; on a missing proposal the Python code would raise
at `proposal.consensus_mode`, modelled as an error result. -/
def evaluateConsensus (o : Orchestrator) (commitId : Nat) :
    ConsensusResult × Orchestrator :=
  match getCommit o.db commitId with
  | none => (.decided "error" "proposal_missing", o)
  | some proposal =>
    let votes := getVotesForCommit o.db commitId
    let totalEligible := (getActiveMembers o.db).length
    let totalVoted := votes.length
    let approvals := (votes.filter (fun v => v.choice == "approve")).length
    let rejections := (votes.filter (fun v => v.choice == "reject")).length
    let humanRejections := votes.filter (fun v => v.choice == "reject" && v.isHumanOverride)
    if humanRejections ≠ [] then
      let names := String.intercalate ", " (humanRejections.map (fun v => v.voterName))
      (.decided "rejected" "human_veto",
        resolveCommit o commitId "rejected"
          s!"Commit {commitId} rejected, human veto by {names}")
    else if proposal.consensusMode = "unanimous" then
      if rejections > 0 then
        (.decided "rejected" "not_unanimous",
          resolveCommit o commitId "rejected"
            s!"Commit {commitId} rejected (unanimous required, got {rejections} rejections)")
      else if approvals = totalEligible then
        (.decided "approved" "unanimous", commitToContext o proposal)
      else
        (.pending totalVoted totalEligible approvals rejections, o)
    else if proposal.consensusMode = "majority" then
      if totalVoted ≥ totalEligible then
        if 2 * approvals > totalEligible then
          (.decided "approved" s!"majority ({approvals}/{totalEligible})",
            commitToContext o proposal)
        else
          (.decided "rejected" "no_majority",
            resolveCommit o commitId "rejected"
              s!"Commit {commitId} rejected ({approvals}/{totalEligible} approved, majority needed)")
      else if 2 * approvals > totalEligible then
        (.decided "approved" s!"early_majority ({approvals}/{totalEligible})",
          commitToContext o proposal)
      else
        (.pending totalVoted totalEligible approvals rejections, o)
    else if proposal.consensusMode = "no_objection" then
      if rejections > 0 then
        (.decided "rejected" "objection_raised",
          resolveCommit o commitId "rejected"
            s!"Commit {commitId} rejected (objection raised)")
      else
        -- "Would normally check timeout here — in production, run a background
        -- task": no time-driven branch exists in the source.
        (.pending totalVoted totalEligible approvals rejections, o)
    else
      (.pending totalVoted totalEligible approvals rejections, o)

/-- `vote(voter_name, commit_id, choice, is_human_override)`. -/
def vote (o : Orchestrator) (voterName : String) (commitId : Nat) (choice : String)
    (isHumanOverride : Bool) : CallResult (Vote × ConsensusResult) × Orchestrator :=
  match getMemberByName o.db voterName with
  | none => (.err s!"{voterName} is not in the squad", o)
  | some member =>
    match getCommit o.db commitId with
    | none => (.err s!"Commit {commitId} not found", o)
    | some proposal =>
      if proposal.status ≠ "pending" then
        (.err s!"Commit {commitId} is already {proposal.status}", o)
      else if choice ≠ "approve" ∧ choice ≠ "reject" ∧ choice ≠ "abstain" then
        (.err "Choice must be approve, reject, or abstain", o)
      else
        let v : Vote := ⟨o.nextId, commitId, member.id, voterName, choice,
          isHumanOverride, o.now⟩
        let o := { o with nextId := o.nextId + 1, db := addVote o.db v }
        let (sysMsg, o) := pushMessage o .orchestrator "Squad Bot" "system"
          s!"**{voterName}** voted **{choice}** on commit {commitId}" none
        let o := broadcast o "new_message" (.newMessage sysMsg)
        let o := broadcast o "vote_cast" (.voteCast v)
        let result := evaluateConsensus o commitId
        (.ok (v, result.1), result.2)

/-- One mutating engine call, for trace reasoning.  The read-only calls
(`get_members`, `read_messages`, `get_context`, `get_pending_commits`,
`get_status`) do not change the state and are omitted from traces. -/
inductive Op where
  | join (name model : String)
  | leave (name : String)
  | sendMessage (sender content senderType : String) (replyTo : Option Nat)
  | proposeCommit (proposer content origin : String)
  | vote (voter : String) (commitId : Nat) (choice : String) (isHumanOverride : Bool)
deriving DecidableEq, Repr

/-- Run one call for its state effect. -/
def step (o : Orchestrator) : Op → Orchestrator
  | .join name model => (join o name model).2
  | .leave name => (leave o name).2
  | .sendMessage s c t r => (sendMessage o s c t r).2
  | .proposeCommit p c orig => (proposeCommit o p c orig).2
  | .vote v cid ch h => (vote o v cid ch h).2

/-- Run a sequence of calls. -/
def run (o : Orchestrator) (ops : List Op) : Orchestrator :=
  ops.foldl step o

/-- Status of the proposal with a given id, if stored. -/
def statusOf (o : Orchestrator) (commitId : Nat) : Option String :=
  (getCommit o.db commitId).map (fun c => c.status)

/-- Is this event the `commit_resolved` broadcast of the given proposal? -/
def Event.resolvedFor (e : Event) (commitId : Nat) : Bool :=
  match e.data with
  | .commitResolved cid _ => e.type == "commit_resolved" && cid == commitId
  | _ => false

/-- Number of `commit_resolved` events broadcast for a proposal. -/
def countResolved (o : Orchestrator) (commitId : Nat) : Nat :=
  (o.events.filter (fun e => e.resolvedFor commitId)).length

/-- Is this event the `context_updated` broadcast of an entry born from the
given proposal? -/
def Event.contextFor (e : Event) (commitId : Nat) : Bool :=
  match e.data with
  | .contextUpdated entry => e.type == "context_updated" && entry.commitId == commitId
  | _ => false

/-- Number of `context_updated` events broadcast for a proposal. -/
def countContextUpdated (o : Orchestrator) (commitId : Nat) : Nat :=
  (o.events.filter (fun e => e.contextFor commitId)).length

/-! ### Ledger version arithmetic -/

theorem foldr_max_of_le {l : List Nat} {b : Nat} (h : ∀ x ∈ l, x ≤ b) :
    l.foldr Nat.max b = b := by
  induction l with
  | nil => rfl
  | cons a t ih =>
    have ha : a ≤ b := h a (by simp)
    have := ih (fun x hx => h x (by simp [hx]))
    simp [List.foldr, this, Nat.max_eq_right ha]

theorem foldr_max_range' (n : Nat) :
    (List.range' 1 n).foldr Nat.max 0 = n := by
  induction n with
  | zero => rfl
  | succ k ih =>
    rw [List.range'_concat, List.foldr_append]
    have h1 : (1 + 1 * k) = k + 1 := by omega
    have h2 : List.foldr Nat.max 0 [1 + 1 * k] = k + 1 := by
      simp only [List.foldr, h1, Nat.max_eq_left (Nat.zero_le _)]
    rw [h2]
    exact foldr_max_of_le (fun x hx => by
      rcases List.mem_range'.mp hx with ⟨i, hi, rfl⟩
      omega)

theorem maxVersion_of_versions {db : SquadDatabase} {n : Nat}
    (h : db.contextEntries.map (fun e => e.version) = List.range' 1 n) :
    maxVersion db = n := by
  unfold maxVersion
  rw [h]
  exact foldr_max_range' n

theorem length_of_versions {db : SquadDatabase} {n : Nat}
    (h : db.contextEntries.map (fun e => e.version) = List.range' 1 n) :
    db.contextEntries.length = n := by
  have := congrArg List.length h
  simpa using this

theorem versions_addContextEntry {db : SquadDatabase} {n : Nat} (entry : ContextEntry)
    (h : db.contextEntries.map (fun e => e.version) = List.range' 1 n) :
    (addContextEntry db entry).2.contextEntries.map (fun e => e.version) =
      List.range' 1 (n + 1) := by
  unfold addContextEntry
  simp only [List.map_append, h, maxVersion_of_versions h, List.map_cons, List.map_nil]
  rw [List.range'_concat]
  simp [Nat.add_comm]

theorem sorted_of_versions {db : SquadDatabase} {n : Nat}
    (h : db.contextEntries.map (fun e => e.version) = List.range' 1 n) :
    List.Sorted (fun a b : ContextEntry => a.version ≤ b.version) db.contextEntries := by
  have hpw : List.Pairwise (· < ·) (db.contextEntries.map (fun e => e.version)) := by
    rw [h]; exact List.pairwise_lt_range' 1 n
  rw [List.pairwise_map] at hpw
  exact List.Pairwise.imp (fun hab => Nat.le_of_lt hab) hpw

theorem getContext_of_versions {db : SquadDatabase} {n : Nat}
    (h : db.contextEntries.map (fun e => e.version) = List.range' 1 n) :
    getContext db = db.contextEntries :=
  List.Sorted.insertionSort_eq (sorted_of_versions h)

end SquadBot

namespace SquadBot

/-- Append a batch of entries through `add_context_entry`, keeping only the
database (the caller in `src/orchestrator.py` does this once per approval). -/
def appendEntries (db : SquadDatabase) (es : List ContextEntry) : SquadDatabase :=
  es.foldl (fun d e => (addContextEntry d e).2) db

theorem appendEntries_versions {db : SquadDatabase} {n : Nat}
    (h : db.contextEntries.map (fun e => e.version) = List.range' 1 n)
    (es : List ContextEntry) :
    (appendEntries db es).contextEntries.map (fun e => e.version) =
      List.range' 1 (n + es.length) := by
  induction es generalizing db n with
  | nil => simpa using h
  | cons e t ih =>
    have h1 := versions_addContextEntry e h
    have := ih h1
    simpa [appendEntries, Nat.add_comm, Nat.add_assoc, Nat.add_left_comm] using this

end SquadBot

/-- C4: for every squad, after `N` successful context appends `currentVersion`
equals `N`, the stored entry versions are exactly `1..N` (gap-free and
duplicate-free), and `readAll` (`get_context`) returns the entries in
ascending version order. -/
theorem c4_ledger_versions (db : SquadBot.SquadDatabase)
    (hstart : db.contextEntries = []) (es : List SquadBot.ContextEntry) :
    (SquadBot.appendEntries db es).contextEntries.map (fun e => e.version) =
        List.range' 1 es.length ∧
      SquadBot.getContextVersion (SquadBot.appendEntries db es) = es.length ∧
      SquadBot.getContext (SquadBot.appendEntries db es) =
        (SquadBot.appendEntries db es).contextEntries ∧
      List.Sorted (fun a b : SquadBot.ContextEntry => a.version ≤ b.version)
        (SquadBot.getContext (SquadBot.appendEntries db es)) := by
  have h0 : db.contextEntries.map (fun e => e.version) = List.range' 1 0 := by
    simp [hstart]
  have hv := SquadBot.appendEntries_versions h0 es
  rw [Nat.zero_add] at hv
  refine ⟨hv, ?_, ?_, ?_⟩
  · exact SquadBot.maxVersion_of_versions hv
  · exact SquadBot.getContext_of_versions hv
  · rw [SquadBot.getContext_of_versions hv]
    exact SquadBot.sorted_of_versions hv

namespace SquadBot

/-! ### Commit lookup and update lemmas -/

theorem getCommit_updateCommitStatus (db : SquadDatabase) (pid : Nat)
    (s : String) (t : Option Nat) :
    getCommit (updateCommitStatus db pid s t) pid =
      (getCommit db pid).map (fun c => { c with status := s, resolvedAt := t }) := by
  unfold getCommit updateCommitStatus
  induction db.commits with
  | nil => rfl
  | cons c cs ih =>
    by_cases hc : c.id = pid
    · simp [List.find?, hc]
    · have hbeq : (c.id == pid) = false := by simp [hc]
      simp only [List.map_cons, List.find?, if_neg hc, hbeq]
      exact ih

theorem getCommit_updateCommitStatus_other (db : SquadDatabase) (pid pid2 : Nat)
    (s : String) (t : Option Nat) (hne : pid2 ≠ pid) :
    getCommit (updateCommitStatus db pid s t) pid2 = getCommit db pid2 := by
  unfold getCommit updateCommitStatus
  induction db.commits with
  | nil => rfl
  | cons c cs ih =>
    by_cases hc : c.id = pid
    · have h1 : (c.id == pid2) = false := by simp [hc, Ne.symm hne]
      simp only [List.map_cons, List.find?, if_pos hc, h1]
      exact ih
    · simp only [List.map_cons, List.find?, if_neg hc]
      cases hb : (c.id == pid2) with
      | true => rfl
      | false => exact ih

theorem getCommit_id {db : SquadDatabase} {pid : Nat} {p : CommitProposal}
    (hp : getCommit db pid = some p) : p.id = pid := by
  have := List.find?_some hp
  simpa using this

theorem getCommit_mem {db : SquadDatabase} {pid : Nat} {p : CommitProposal}
    (hp : getCommit db pid = some p) : p ∈ db.commits :=
  List.mem_of_find?_eq_some hp

/-- `add_vote`, `add_message`, `add_member`, `remove_member`,
`add_context_entry` leave the proposal table unchanged. -/
theorem commits_addVote (db : SquadDatabase) (v : Vote) :
    (addVote db v).commits = db.commits := rfl

theorem commits_addMessage (db : SquadDatabase) (m : Message) :
    (addMessage db m).commits = db.commits := rfl

theorem getCommit_resolveCommit (o : Orchestrator) (pid : Nat) (s ann : String)
    (pid2 : Nat) :
    getCommit (resolveCommit o pid s ann).db pid2 =
      getCommit (updateCommitStatus o.db pid s (some o.now)) pid2 := rfl

theorem statusOf_resolveCommit {o : Orchestrator} {pid : Nat} {p : CommitProposal}
    (s ann : String) (hp : getCommit o.db pid = some p) :
    statusOf (resolveCommit o pid s ann) pid = some s := by
  unfold statusOf
  rw [getCommit_resolveCommit, getCommit_updateCommitStatus, hp]
  rfl

theorem statusOf_commitToContext {o : Orchestrator} {pid : Nat} {p : CommitProposal}
    (hp : getCommit o.db pid = some p) (hid : p.id = pid) :
    statusOf (commitToContext o p) pid = some "approved" := by
  unfold commitToContext
  rw [hid]
  exact statusOf_resolveCommit _ _ hp

/-! ### Vote-table lemmas -/

theorem getVotesForCommit_addVote {db : SquadDatabase} {v : Vote} {pid : Nat}
    (h : v.commitId = pid) :
    getVotesForCommit (addVote db v) pid =
      (db.votes.filter (fun w =>
        w.id != v.id && !(w.commitId == v.commitId && w.voterId == v.voterId))).filter
          (fun w => w.commitId == pid) ++ [v] := by
  unfold getVotesForCommit addVote
  rw [List.filter_append]
  simp [h]

end SquadBot

/-- C1: for every pending proposal, in any consensus mode, a `reject` vote
with `isHumanOverride = true` cast by an active member resolves the proposal
to `rejected` with reason `human_veto` — regardless of what the other votes
are, in particular even after every other active member voted `approve`. -/
theorem c1_human_veto (o : SquadBot.Orchestrator) (name : String) (pid : Nat)
    (m : SquadBot.SquadMember) (p : SquadBot.CommitProposal)
    (hm : SquadBot.getMemberByName o.db name = some m)
    (hp : SquadBot.getCommit o.db pid = some p)
    (hpend : p.status = "pending") :
    (SquadBot.vote o name pid "reject" true).1 =
        .ok (⟨o.nextId, pid, m.id, name, "reject", true, o.now⟩,
          .decided "rejected" "human_veto") ∧
      SquadBot.statusOf (SquadBot.vote o name pid "reject" true).2 pid =
        some "rejected" := by
  unfold SquadBot.vote
  rw [hm, hp]
  have h1 : ¬ (p.status ≠ "pending") := by simp [hpend]
  have h2 : ¬ (("reject" : String) ≠ "approve" ∧ ("reject" : String) ≠ "reject" ∧
      ("reject" : String) ≠ "abstain") := by simp
  simp only [h1, h2, if_false, ite_false]
  have hp' : o.db.commits.find? (fun c => c.id == pid) = some p := hp
  simp only [SquadBot.pushMessage, SquadBot.broadcast, SquadBot.addMessage,
    SquadBot.addVote, SquadBot.evaluateConsensus, SquadBot.getCommit,
    SquadBot.getVotesForCommit, SquadBot.getActiveMembers, hp']
  simp only [List.filter_append, List.filter_cons, List.filter_nil, beq_self_eq_true,
    Bool.and_self, Bool.and_true, if_true, ne_eq, List.append_eq_nil,
    List.cons_ne_nil, and_false, not_false_eq_true, if_pos]
  exact ⟨trivial, SquadBot.statusOf_resolveCommit _ _ hp⟩

namespace SquadBot

theorem filter_veto_eq_nil {votes : List Vote}
    (hveto : ∀ v ∈ votes, ¬(v.choice = "reject" ∧ v.isHumanOverride = true)) :
    votes.filter (fun v => v.choice == "reject" && v.isHumanOverride) = [] := by
  rw [List.filter_eq_nil_iff]
  intro a ha
  have := hveto a ha
  simp only [Bool.and_eq_true, beq_iff_eq]
  tauto

end SquadBot

/-- C2: in majority mode with no human-veto rejection on file, evaluation of
a pending proposal resolves `approved` exactly when the approve count `a`
strictly exceeds half the live active-member count `n`: once the vote count
reaches the active count it resolves `approved` iff `2*a > n` (an exact half
under an even count resolves `rejected` with reason `no_majority`), and if
approvals already strictly exceed half before all votes are in it resolves
`approved` immediately (early majority). -/
theorem c2_majority_threshold (o : SquadBot.Orchestrator) (pid : Nat)
    (p : SquadBot.CommitProposal) (a n : Nat)
    (hp : SquadBot.getCommit o.db pid = some p)
    (hmode : p.consensusMode = "majority")
    (_hpend : p.status = "pending")
    (hveto : ∀ v ∈ SquadBot.getVotesForCommit o.db pid,
      ¬(v.choice = "reject" ∧ v.isHumanOverride = true))
    (ha : a = ((SquadBot.getVotesForCommit o.db pid).filter
      (fun v => v.choice == "approve")).length)
    (hn : n = (SquadBot.getActiveMembers o.db).length) :
    ((SquadBot.getVotesForCommit o.db pid).length ≥ n → 2 * a > n →
        (SquadBot.evaluateConsensus o pid).1 =
            .decided "approved" s!"majority ({a}/{n})" ∧
          SquadBot.statusOf (SquadBot.evaluateConsensus o pid).2 pid =
            some "approved") ∧
      ((SquadBot.getVotesForCommit o.db pid).length ≥ n → ¬(2 * a > n) →
        (SquadBot.evaluateConsensus o pid).1 = .decided "rejected" "no_majority" ∧
          SquadBot.statusOf (SquadBot.evaluateConsensus o pid).2 pid =
            some "rejected") ∧
      (¬((SquadBot.getVotesForCommit o.db pid).length ≥ n) → 2 * a > n →
        (SquadBot.evaluateConsensus o pid).1 =
            .decided "approved" s!"early_majority ({a}/{n})" ∧
          SquadBot.statusOf (SquadBot.evaluateConsensus o pid).2 pid =
            some "approved") := by
  subst ha hn
  have hp' : List.find? (fun c => c.id == pid) o.db.commits = some p := hp
  have hr : List.filter (fun v => v.choice == "reject" && v.isHumanOverride)
      (SquadBot.getVotesForCommit o.db pid) = [] :=
    SquadBot.filter_veto_eq_nil hveto
  refine ⟨fun hvot hcnt => ?_, fun hvot hcnt => ?_, fun hvot hcnt => ?_⟩ <;>
    simp only [SquadBot.evaluateConsensus, SquadBot.getCommit, hp'] <;>
    split_ifs <;>
    first
      | exact ⟨rfl, SquadBot.statusOf_commitToContext hp (SquadBot.getCommit_id hp)⟩
      | exact ⟨rfl, SquadBot.statusOf_resolveCommit _ _ hp⟩
      | omega
      | simp_all

/-- A concrete state for the C2 witness: the spec's majority example — four
active members, votes approve, approve, reject, abstain all in. -/
def majorityState : SquadBot.Orchestrator :=
  { db :=
      { members := [⟨0, "Ava", "claude", 0, true⟩, ⟨1, "Ben", "gpt", 0, true⟩,
          ⟨2, "Cy", "gemini", 0, true⟩, ⟨3, "Di", "llama", 0, true⟩]
        messages := []
        contextEntries := []
        commits := [⟨10, "ship it", .member 0, "Ava", "agent_nominated", "pending",
          0, none, "majority", 300⟩]
        votes := [⟨20, 10, 0, "Ava", "approve", false, 0⟩,
          ⟨21, 10, 1, "Ben", "approve", false, 0⟩,
          ⟨22, 10, 2, "Cy", "reject", false, 0⟩,
          ⟨23, 10, 3, "Di", "abstain", false, 0⟩] }
    consensusMode := "majority"
    events := []
    nextId := 30
    now := 5 }

/-- Witness for C2: in `majorityState` all four active members voted
(2 approve, 1 reject, 1 abstain), so with 2 not strictly exceeding 4/2 the
theorem yields `rejected` with reason `no_majority`. -/
theorem c2_majority_threshold_witness :
    SquadBot.getCommit majorityState.db 10 =
        some ⟨10, "ship it", .member 0, "Ava", "agent_nominated", "pending",
          0, none, "majority", 300⟩ ∧
      (∀ v ∈ SquadBot.getVotesForCommit majorityState.db 10,
        ¬(v.choice = "reject" ∧ v.isHumanOverride = true)) ∧
      (((SquadBot.getVotesForCommit majorityState.db 10).length ≥ 4 →
          ¬(2 * 2 > 4) →
          (SquadBot.evaluateConsensus majorityState 10).1 =
              .decided "rejected" "no_majority" ∧
            SquadBot.statusOf (SquadBot.evaluateConsensus majorityState 10).2 10 =
              some "rejected") ∧
        (SquadBot.evaluateConsensus majorityState 10).1 =
          .decided "rejected" "no_majority") :=
  ⟨rfl, by decide,
    (c2_majority_threshold majorityState 10
        ⟨10, "ship it", .member 0, "Ava", "agent_nominated", "pending",
          0, none, "majority", 300⟩ 2 4 rfl rfl rfl (by decide) rfl rfl).2.1,
    ((c2_majority_threshold majorityState 10
        ⟨10, "ship it", .member 0, "Ava", "agent_nominated", "pending",
          0, none, "majority", 300⟩ 2 4 rfl rfl rfl (by decide) rfl rfl).2.1
      (by decide) (by decide)).1⟩

/-- C3: in unanimous mode with no human-veto rejection on file, evaluation
of a pending proposal resolves `rejected` with reason `not_unanimous` as soon
as any reject vote is on file; it resolves `approved` only when the approve
count equals the total number of active members, where that total is read
from the live member table at evaluation time (`getActiveMembers o.db`), not
from a snapshot; otherwise (no reject, approvals short of the live total —
e.g. an abstention) the result is a `pending` snapshot and the state is
returned unchanged, so re-evaluation can never make progress: the proposal
stays pending indefinitely. -/
theorem c3_unanimous_rule (o : SquadBot.Orchestrator) (pid : Nat)
    (p : SquadBot.CommitProposal)
    (hp : SquadBot.getCommit o.db pid = some p)
    (hmode : p.consensusMode = "unanimous")
    (_hpend : p.status = "pending")
    (hveto : ∀ v ∈ SquadBot.getVotesForCommit o.db pid,
      ¬(v.choice = "reject" ∧ v.isHumanOverride = true)) :
    (((SquadBot.getVotesForCommit o.db pid).filter
          (fun v => v.choice == "reject")).length > 0 →
        (SquadBot.evaluateConsensus o pid).1 = .decided "rejected" "not_unanimous" ∧
          SquadBot.statusOf (SquadBot.evaluateConsensus o pid).2 pid =
            some "rejected") ∧
      (((SquadBot.getVotesForCommit o.db pid).filter
            (fun v => v.choice == "reject")).length = 0 →
        ((SquadBot.getVotesForCommit o.db pid).filter
            (fun v => v.choice == "approve")).length =
          (SquadBot.getActiveMembers o.db).length →
        (SquadBot.evaluateConsensus o pid).1 = .decided "approved" "unanimous" ∧
          SquadBot.statusOf (SquadBot.evaluateConsensus o pid).2 pid =
            some "approved") ∧
      (((SquadBot.getVotesForCommit o.db pid).filter
            (fun v => v.choice == "reject")).length = 0 →
        ((SquadBot.getVotesForCommit o.db pid).filter
            (fun v => v.choice == "approve")).length ≠
          (SquadBot.getActiveMembers o.db).length →
        (SquadBot.evaluateConsensus o pid).1 =
            .pending (SquadBot.getVotesForCommit o.db pid).length
              (SquadBot.getActiveMembers o.db).length
              ((SquadBot.getVotesForCommit o.db pid).filter
                (fun v => v.choice == "approve")).length
              ((SquadBot.getVotesForCommit o.db pid).filter
                (fun v => v.choice == "reject")).length ∧
          (SquadBot.evaluateConsensus o pid).2 = o) := by
  have hp' : List.find? (fun c => c.id == pid) o.db.commits = some p := hp
  have hr : List.filter (fun v => v.choice == "reject" && v.isHumanOverride)
      (SquadBot.getVotesForCommit o.db pid) = [] :=
    SquadBot.filter_veto_eq_nil hveto
  refine ⟨fun hrej => ?_, fun hrej happ => ?_, fun hrej happ => ?_⟩ <;>
    simp only [SquadBot.evaluateConsensus, SquadBot.getCommit, hp'] <;>
    split_ifs <;>
    first
      | exact ⟨rfl, SquadBot.statusOf_commitToContext hp (SquadBot.getCommit_id hp)⟩
      | exact ⟨rfl, SquadBot.statusOf_resolveCommit _ _ hp⟩
      | exact ⟨rfl, rfl⟩
      | omega
      | simp_all

/-- A concrete state for the C3 witness: the spec's stall example — three
active members in unanimous mode with votes approve, approve, abstain. -/
def stallState : SquadBot.Orchestrator :=
  { db :=
      { members := [⟨0, "Ava", "claude", 0, true⟩, ⟨1, "Ben", "gpt", 0, true⟩,
          ⟨2, "Cy", "gemini", 0, true⟩]
        messages := []
        contextEntries := []
        commits := [⟨10, "ship it", .member 0, "Ava", "agent_nominated", "pending",
          0, none, "unanimous", 300⟩]
        votes := [⟨20, 10, 0, "Ava", "approve", false, 0⟩,
          ⟨21, 10, 1, "Ben", "approve", false, 0⟩,
          ⟨22, 10, 2, "Cy", "abstain", false, 0⟩] }
    consensusMode := "unanimous"
    events := []
    nextId := 30
    now := 5 }

/-- Witness for C3: in `stallState` (3 active members, votes approve,
approve, abstain) the theorem yields the `pending` snapshot with the state
unchanged — the stall the spec requires to be reproduced. -/
theorem c3_unanimous_rule_witness :
    SquadBot.getCommit stallState.db 10 =
        some ⟨10, "ship it", .member 0, "Ava", "agent_nominated", "pending",
          0, none, "unanimous", 300⟩ ∧
      (∀ v ∈ SquadBot.getVotesForCommit stallState.db 10,
        ¬(v.choice = "reject" ∧ v.isHumanOverride = true)) ∧
      (SquadBot.evaluateConsensus stallState 10).1 = .pending 3 3 2 0 ∧
      (SquadBot.evaluateConsensus stallState 10).2 = stallState :=
  ⟨rfl, by decide,
    by
      have h := (c3_unanimous_rule stallState 10
        ⟨10, "ship it", .member 0, "Ava", "agent_nominated", "pending",
          0, none, "unanimous", 300⟩ rfl rfl rfl (by decide)).2.2 (by decide) (by decide)
      exact h.1,
    by
      have h := (c3_unanimous_rule stallState 10
        ⟨10, "ship it", .member 0, "Ava", "agent_nominated", "pending",
          0, none, "unanimous", 300⟩ rfl rfl rfl (by decide)).2.2 (by decide) (by decide)
      exact h.2⟩

namespace SquadBot

/-! ### Reachable-state invariant

`Inv` collects the bookkeeping facts that every engine call preserves; the
claims about resolution events, terminal statuses and the ledger/proposal
correspondence are read off it. -/

structure Inv (o : Orchestrator) : Prop where
  memberIdLt : ∀ m ∈ o.db.members, m.id < o.nextId
  commitIdLt : ∀ c ∈ o.db.commits, c.id < o.nextId
  commitIdNodup : (o.db.commits.map (fun c => c.id)).Nodup
  statusValid : ∀ c ∈ o.db.commits,
    c.status = "pending" ∨ c.status = "approved" ∨ c.status = "rejected"
  resolvedCount : ∀ c ∈ o.db.commits,
    countResolved o c.id = if c.status = "pending" then 0 else 1
  resolvedNone : ∀ pid, getCommit o.db pid = none → countResolved o pid = 0
  ctxCount : ∀ c ∈ o.db.commits,
    (o.db.contextEntries.filter (fun e => e.commitId == c.id)).length =
      if c.status = "approved" then 1 else 0
  ctxEvents : ∀ c ∈ o.db.commits,
    countContextUpdated o c.id = if c.status = "approved" then 1 else 0
  ctxNone : ∀ pid, getCommit o.db pid = none → countContextUpdated o pid = 0
  entryLink : ∀ e ∈ o.db.contextEntries, ∃ c ∈ o.db.commits,
    c.id = e.commitId ∧ c.status = "approved" ∧ c.content = e.content
  versions : o.db.contextEntries.map (fun e => e.version) =
    List.range' 1 o.db.contextEntries.length

/-- One-step status evolution: every stored proposal stays stored, and its
status either does not move or moves from `pending` to a terminal value. -/
def Mono (o o2 : Orchestrator) : Prop :=
  ∀ pid p, getCommit o.db pid = some p → ∃ p2, getCommit o2.db pid = some p2 ∧
    (p2.status = p.status ∨
      (p.status = "pending" ∧ (p2.status = "approved" ∨ p2.status = "rejected")))

theorem inv_init (mode : String) : Inv (initOrchestrator mode) := by
  constructor <;> simp [initOrchestrator, getCommit, countResolved,
    countContextUpdated]

theorem mono_refl (o : Orchestrator) : Mono o o :=
  fun _ p hp => ⟨p, hp, Or.inl rfl⟩

theorem getCommit_none_of_lt {db : SquadDatabase} {n : Nat}
    (h : ∀ c ∈ db.commits, c.id < n) : getCommit db n = none := by
  apply List.find?_eq_none.mpr
  intro c hc
  have := h c hc
  simp only [beq_iff_eq]
  omega

theorem getCommit_eq_of_mem {db : SquadDatabase} {pid : Nat}
    {c p : CommitProposal} (hnd : (db.commits.map (fun c => c.id)).Nodup)
    (hc : c ∈ db.commits) (hid : c.id = pid)
    (hp : getCommit db pid = some p) : c = p := by
  have hpm : p ∈ db.commits := getCommit_mem hp
  have hpid : p.id = pid := getCommit_id hp
  exact List.inj_on_of_nodup_map hnd hc hpm (by rw [hid, hpid])

/-- Ids of the proposal table are untouched by a status update. -/
theorem ids_updateCommitStatus (db : SquadDatabase) (pid : Nat) (s : String)
    (t : Option Nat) :
    (updateCommitStatus db pid s t).commits.map (fun c => c.id) =
      db.commits.map (fun c => c.id) := by
  unfold updateCommitStatus
  rw [List.map_map]
  apply List.map_congr_left
  intro c _
  by_cases hc : c.id = pid <;> simp [hc]

/-- Count of matching events after appending events that do not match. -/
theorem countResolved_of_events {o o2 : Orchestrator} {es : List Event} (pid : Nat)
    (h : o2.events = o.events ++ es)
    (hes : ∀ e ∈ es, e.resolvedFor pid = false) :
    countResolved o2 pid = countResolved o pid := by
  unfold countResolved
  have hnil : es.filter (fun e => e.resolvedFor pid) = [] :=
    List.filter_eq_nil_iff.mpr (by simpa using hes)
  rw [h, List.filter_append, hnil]
  simp

theorem countContextUpdated_of_events {o o2 : Orchestrator} {es : List Event}
    (pid : Nat) (h : o2.events = o.events ++ es)
    (hes : ∀ e ∈ es, e.contextFor pid = false) :
    countContextUpdated o2 pid = countContextUpdated o pid := by
  unfold countContextUpdated
  have hnil : es.filter (fun e => e.contextFor pid) = [] :=
    List.filter_eq_nil_iff.mpr (by simpa using hes)
  rw [h, List.filter_append, hnil]
  simp

theorem getCommit_congr {db1 db2 : SquadDatabase} (pid : Nat)
    (h : db1.commits = db2.commits) : getCommit db1 pid = getCommit db2 pid := by
  unfold getCommit
  rw [h]

theorem countResolved_resolveCommit (o : Orchestrator) (pid : Nat)
    (s ann : String) (pid2 : Nat) :
    countResolved (resolveCommit o pid s ann) pid2 =
      countResolved o pid2 + (if pid2 = pid then 1 else 0) := by
  by_cases hc : pid2 = pid <;>
    simp [resolveCommit, pushMessage, broadcast, countResolved,
      List.filter_append, Event.resolvedFor, hc] <;> omega

theorem countContextUpdated_resolveCommit (o : Orchestrator) (pid : Nat)
    (s ann : String) (pid2 : Nat) :
    countContextUpdated (resolveCommit o pid s ann) pid2 =
      countContextUpdated o pid2 := by
  simp [resolveCommit, pushMessage, broadcast, countContextUpdated,
    List.filter_append, Event.contextFor]

/-- The ledger entry `_commit_to_context` inserts for a proposal. -/
def ctxEntryOf (o : Orchestrator) (p : CommitProposal) : ContextEntry :=
  ⟨o.nextId, p.content, o.now, p.proposedByName, p.origin, p.id,
    maxVersion o.db + 1⟩

theorem commitToContext_entries (o : Orchestrator) (p : CommitProposal) :
    (commitToContext o p).db.contextEntries =
      o.db.contextEntries ++ [ctxEntryOf o p] := rfl

theorem countResolved_commitToContext (o : Orchestrator) (p : CommitProposal)
    (pid2 : Nat) :
    countResolved (commitToContext o p) pid2 =
      countResolved o pid2 + (if pid2 = p.id then 1 else 0) := by
  by_cases hc : pid2 = p.id <;>
    simp [commitToContext, resolveCommit, pushMessage, broadcast, countResolved,
      addContextEntry, List.filter_append, Event.resolvedFor, hc] <;> omega

theorem countContextUpdated_commitToContext (o : Orchestrator)
    (p : CommitProposal) (pid2 : Nat) :
    countContextUpdated (commitToContext o p) pid2 =
      countContextUpdated o pid2 + (if pid2 = p.id then 1 else 0) := by
  by_cases hc : pid2 = p.id <;>
    simp [commitToContext, resolveCommit, pushMessage, broadcast,
      countContextUpdated, addContextEntry, List.filter_append,
      Event.contextFor, ctxEntryOf, hc] <;> omega

theorem getCommit_none_iff {db : SquadDatabase} {pid : Nat} :
    getCommit db pid = none ↔ ∀ c ∈ db.commits, c.id ≠ pid := by
  unfold getCommit
  rw [List.find?_eq_none]
  simp

/-- `Inv` and `Mono` are preserved by `_resolve_commit ... "rejected"` applied
to a stored pending proposal.  (Approval goes through `_commit_to_context`,
which inserts the ledger entry first; it has its own lemma below.) -/
theorem inv_mono_resolveCommit (o : Orchestrator) {pid : Nat}
    {p : CommitProposal} (ann : String)
    (h : Inv o) (hp : getCommit o.db pid = some p) (hpend : p.status = "pending") :
    Inv (resolveCommit o pid "rejected" ann) ∧
      Mono o (resolveCommit o pid "rejected" ann) := by
  set o2 := resolveCommit o pid "rejected" ann with ho2
  have hcommits : o2.db.commits =
      o.db.commits.map (fun c =>
        if c.id = pid then { c with status := "rejected", resolvedAt := some o.now }
        else c) := rfl
  have hmembers : o2.db.members = o.db.members := rfl
  have hentries : o2.db.contextEntries = o.db.contextEntries := rfl
  have hnext : o2.nextId = o.nextId + 1 := rfl
  have hcr : ∀ pid2, countResolved o2 pid2 =
      countResolved o pid2 + (if pid2 = pid then 1 else 0) :=
    countResolved_resolveCommit o pid "rejected" ann
  have hcu : ∀ pid2, countContextUpdated o2 pid2 = countContextUpdated o pid2 :=
    countContextUpdated_resolveCommit o pid "rejected" ann
  have hget : ∀ pid2, getCommit o2.db pid2 =
      getCommit (updateCommitStatus o.db pid "rejected" (some o.now)) pid2 :=
    fun pid2 => getCommit_congr pid2 rfl
  have hmem2 : ∀ c2 ∈ o2.db.commits, ∃ c ∈ o.db.commits,
      c2 = if c.id = pid then { c with status := "rejected", resolvedAt := some o.now }
        else c := by
    intro c2 hc2
    rw [hcommits] at hc2
    rcases List.mem_map.mp hc2 with ⟨c, hc, hceq⟩
    exact ⟨c, hc, hceq.symm⟩
  have hid2 : ∀ c : CommitProposal,
      (if c.id = pid then { c with status := "rejected", resolvedAt := some o.now }
        else c).id = c.id := by
    intro c
    by_cases hc : c.id = pid <;> simp [hc]
  have hpersist : ∀ pid2, getCommit o2.db pid2 = none → getCommit o.db pid2 = none := by
    intro pid2 hnone
    rw [hget] at hnone
    rw [getCommit_none_iff] at hnone ⊢
    intro c hc
    have := hnone _ (List.mem_map_of_mem _ hc)
    simpa [hid2] using this
  refine ⟨⟨?_, ?_, ?_, ?_, ?_, ?_, ?_, ?_, ?_, ?_, ?_⟩, ?_⟩
  · -- memberIdLt
    rw [hmembers, hnext]
    intro m hm
    have := h.memberIdLt m hm
    omega
  · -- commitIdLt
    intro c2 hc2
    rcases hmem2 c2 hc2 with ⟨c, hc, rfl⟩
    rw [hid2, hnext]
    have := h.commitIdLt c hc
    omega
  · -- commitIdNodup
    rw [hcommits]
    have hids : (o.db.commits.map (fun c =>
        if c.id = pid then { c with status := "rejected", resolvedAt := some o.now }
          else c)).map (fun c => c.id) = o.db.commits.map (fun c => c.id) :=
      ids_updateCommitStatus o.db pid "rejected" (some o.now)
    rw [hids]
    exact h.commitIdNodup
  · -- statusValid
    intro c2 hc2
    rcases hmem2 c2 hc2 with ⟨c, hc, rfl⟩
    by_cases hcid : c.id = pid
    · simp [hcid]
    · simpa [hcid] using h.statusValid c hc
  · -- resolvedCount
    intro c2 hc2
    rcases hmem2 c2 hc2 with ⟨c, hc, rfl⟩
    rw [hcr]
    by_cases hcid : c.id = pid
    · have hcp : c = p := getCommit_eq_of_mem h.commitIdNodup hc hcid hp
      subst hcp
      have h0 := h.resolvedCount c hc
      rw [hpend] at h0
      simp only [if_pos hcid] at *
      simp at h0
      simp [hcid, h0]
      rw [← hcid]
      exact h0
    · have h0 := h.resolvedCount c hc
      simp [hcid, h0]
  · -- resolvedNone
    intro pid2 hnone
    have hold := hpersist pid2 hnone
    have hne : pid2 ≠ pid := by
      intro hEq
      rw [hEq, hp] at hold
      exact Option.noConfusion hold
    rw [hcr, if_neg hne, h.resolvedNone pid2 hold]
  · -- ctxCount
    intro c2 hc2
    rcases hmem2 c2 hc2 with ⟨c, hc, rfl⟩
    have hbase := h.ctxCount c hc
    rw [hentries]
    by_cases hcid : c.id = pid
    · have hcp : c = p := getCommit_eq_of_mem h.commitIdNodup hc hcid hp
      subst hcp
      rw [hpend] at hbase
      simp only [if_pos hcid]
      simp at hbase
      simpa using hbase
    · simp only [if_neg hcid]
      exact hbase
  · -- ctxEvents
    intro c2 hc2
    rcases hmem2 c2 hc2 with ⟨c, hc, rfl⟩
    have hbase := h.ctxEvents c hc
    rw [hcu]
    by_cases hcid : c.id = pid
    · have hcp : c = p := getCommit_eq_of_mem h.commitIdNodup hc hcid hp
      subst hcp
      rw [hpend] at hbase
      simp only [if_pos hcid]
      simp at hbase
      simpa using hbase
    · simp only [if_neg hcid]
      exact hbase
  · -- ctxNone
    intro pid2 hnone
    rw [hcu]
    exact h.ctxNone pid2 (hpersist pid2 hnone)
  · -- entryLink
    intro e he
    rw [hentries] at he
    rcases h.entryLink e he with ⟨c, hc, hcid, happ, hcont⟩
    have hcne : c.id ≠ pid := by
      intro hEq
      have hcp : c = p := getCommit_eq_of_mem h.commitIdNodup hc hEq hp
      rw [hcp, hpend] at happ
      exact absurd happ (by simp)
    refine ⟨c, ?_, hcid, happ, hcont⟩
    rw [hcommits]
    have : (if c.id = pid then { c with status := "rejected", resolvedAt := some o.now }
        else c) = c := if_neg hcne
    exact this ▸ List.mem_map_of_mem _ hc
  · -- versions
    rw [hentries]
    exact h.versions
  · -- Mono
    intro pid2 p2 hp2
    by_cases hcase : pid2 = pid
    · subst hcase
      have hpp : p2 = p := by
        rw [hp] at hp2
        exact (Option.some.injEq _ _ ▸ hp2).symm
      refine ⟨{ p with status := "rejected", resolvedAt := some o.now }, ?_, ?_⟩
      · rw [hget, getCommit_updateCommitStatus, hp]
        rfl
      · exact Or.inr ⟨by rw [hpp, hpend], Or.inr rfl⟩
    · refine ⟨p2, ?_, Or.inl rfl⟩
      rw [hget, getCommit_updateCommitStatus_other _ _ _ _ _ hcase]
      exact hp2

/-- `Inv` and `Mono` are preserved by `_commit_to_context` applied to a
stored pending proposal: the ledger entry is inserted and the proposal is
resolved `approved` in the same call. -/
theorem inv_mono_commitToContext (o : Orchestrator) {p : CommitProposal}
    (h : Inv o) (hp : getCommit o.db p.id = some p) (hpend : p.status = "pending") :
    Inv (commitToContext o p) ∧ Mono o (commitToContext o p) := by
  set o2 := commitToContext o p with ho2
  have hcommits : o2.db.commits =
      o.db.commits.map (fun c =>
        if c.id = p.id then { c with status := "approved", resolvedAt := some o.now }
        else c) := rfl
  have hmembers : o2.db.members = o.db.members := rfl
  have hentries : o2.db.contextEntries = o.db.contextEntries ++ [ctxEntryOf o p] := rfl
  have hnext : o2.nextId = o.nextId + 2 := rfl
  have hcr : ∀ pid2, countResolved o2 pid2 =
      countResolved o pid2 + (if pid2 = p.id then 1 else 0) :=
    countResolved_commitToContext o p
  have hcu : ∀ pid2, countContextUpdated o2 pid2 =
      countContextUpdated o pid2 + (if pid2 = p.id then 1 else 0) :=
    countContextUpdated_commitToContext o p
  have hget : ∀ pid2, getCommit o2.db pid2 =
      getCommit (updateCommitStatus o.db p.id "approved" (some o.now)) pid2 :=
    fun pid2 => getCommit_congr pid2 rfl
  have hmem2 : ∀ c2 ∈ o2.db.commits, ∃ c ∈ o.db.commits,
      c2 = if c.id = p.id then { c with status := "approved", resolvedAt := some o.now }
        else c := by
    intro c2 hc2
    rw [hcommits] at hc2
    rcases List.mem_map.mp hc2 with ⟨c, hc, hceq⟩
    exact ⟨c, hc, hceq.symm⟩
  have hid2 : ∀ c : CommitProposal,
      (if c.id = p.id then { c with status := "approved", resolvedAt := some o.now }
        else c).id = c.id := by
    intro c
    by_cases hc : c.id = p.id <;> simp [hc]
  have hpersist : ∀ pid2, getCommit o2.db pid2 = none → getCommit o.db pid2 = none := by
    intro pid2 hnone
    rw [hget] at hnone
    rw [getCommit_none_iff] at hnone ⊢
    intro c hc
    have := hnone _ (List.mem_map_of_mem _ hc)
    simpa [hid2] using this
  refine ⟨⟨?_, ?_, ?_, ?_, ?_, ?_, ?_, ?_, ?_, ?_, ?_⟩, ?_⟩
  · -- memberIdLt
    rw [hmembers, hnext]
    intro m hm
    have := h.memberIdLt m hm
    omega
  · -- commitIdLt
    intro c2 hc2
    rcases hmem2 c2 hc2 with ⟨c, hc, rfl⟩
    rw [hid2, hnext]
    have := h.commitIdLt c hc
    omega
  · -- commitIdNodup
    rw [hcommits]
    have hids : (o.db.commits.map (fun c =>
        if c.id = p.id then { c with status := "approved", resolvedAt := some o.now }
          else c)).map (fun c => c.id) = o.db.commits.map (fun c => c.id) :=
      ids_updateCommitStatus o.db p.id "approved" (some o.now)
    rw [hids]
    exact h.commitIdNodup
  · -- statusValid
    intro c2 hc2
    rcases hmem2 c2 hc2 with ⟨c, hc, rfl⟩
    by_cases hcid : c.id = p.id
    · simp [hcid]
    · simpa [hcid] using h.statusValid c hc
  · -- resolvedCount
    intro c2 hc2
    rcases hmem2 c2 hc2 with ⟨c, hc, rfl⟩
    rw [hcr]
    by_cases hcid : c.id = p.id
    · have hcp : c = p := getCommit_eq_of_mem h.commitIdNodup hc hcid hp
      subst hcp
      have h0 := h.resolvedCount c hc
      rw [hpend] at h0
      simp only [if_pos hcid] at *
      simp at h0
      simp [hcid, h0]
    · have h0 := h.resolvedCount c hc
      simp [hcid, h0]
  · -- resolvedNone
    intro pid2 hnone
    have hold := hpersist pid2 hnone
    have hne : pid2 ≠ p.id := by
      intro hEq
      rw [hEq, hp] at hold
      exact Option.noConfusion hold
    rw [hcr, if_neg hne, h.resolvedNone pid2 hold]
  · -- ctxCount
    intro c2 hc2
    rcases hmem2 c2 hc2 with ⟨c, hc, rfl⟩
    have hbase := h.ctxCount c hc
    rw [hentries, List.filter_append]
    by_cases hcid : c.id = p.id
    · have hcp : c = p := getCommit_eq_of_mem h.commitIdNodup hc hcid hp
      subst hcp
      rw [hpend] at hbase
      simp only [if_pos hcid]
      simp at hbase
      simp [ctxEntryOf, hcid, hbase]
      rw [← hcid]
      exact hbase
    · simp only [if_neg hcid]
      have hne : ¬(p.id = c.id) := fun hEq => hcid hEq.symm
      simp [ctxEntryOf, hne]
      exact hbase
  · -- ctxEvents
    intro c2 hc2
    rcases hmem2 c2 hc2 with ⟨c, hc, rfl⟩
    have hbase := h.ctxEvents c hc
    rw [hcu]
    by_cases hcid : c.id = p.id
    · have hcp : c = p := getCommit_eq_of_mem h.commitIdNodup hc hcid hp
      subst hcp
      rw [hpend] at hbase
      simp only [if_pos hcid] at *
      simp at hbase
      simp [hcid, hbase]
    · simp only [if_neg hcid, hid2]
      simp [hcid]
      exact hbase
  · -- ctxNone
    intro pid2 hnone
    have hold := hpersist pid2 hnone
    have hne : pid2 ≠ p.id := by
      intro hEq
      rw [hEq, hp] at hold
      exact Option.noConfusion hold
    rw [hcu, if_neg hne, h.ctxNone pid2 hold]
  · -- entryLink
    intro e he
    rw [hentries] at he
    rcases List.mem_append.mp he with he1 | he1
    · rcases h.entryLink e he1 with ⟨c, hc, hcid, happ, hcont⟩
      have hcne : c.id ≠ p.id := by
        intro hEq
        have hcp : c = p := getCommit_eq_of_mem h.commitIdNodup hc hEq hp
        rw [hcp, hpend] at happ
        exact absurd happ (by simp)
      refine ⟨c, ?_, hcid, happ, hcont⟩
      rw [hcommits]
      have heqc : (if c.id = p.id then
          { c with status := "approved", resolvedAt := some o.now } else c) = c :=
        if_neg hcne
      exact heqc ▸ List.mem_map_of_mem _ hc
    · have he2 : e = ctxEntryOf o p := by simpa using he1
      subst he2
      refine ⟨{ p with status := "approved", resolvedAt := some o.now }, ?_, ?_, rfl, rfl⟩
      · rw [hcommits]
        have hpm : p ∈ o.db.commits := getCommit_mem hp
        have heqp : (if p.id = p.id then
            { p with status := "approved", resolvedAt := some o.now } else p) =
              { p with status := "approved", resolvedAt := some o.now } := if_pos rfl
        exact heqp ▸ List.mem_map_of_mem _ hpm
      · rfl
  · -- versions
    have hv : (o.db.contextEntries ++ [ctxEntryOf o p]).map (fun e => e.version) =
        List.range' 1 (o.db.contextEntries.length + 1) :=
      versions_addContextEntry ⟨o.nextId, p.content, o.now,
        p.proposedByName, p.origin, p.id, 0⟩ h.versions
    have hlen : o2.db.contextEntries.length = o.db.contextEntries.length + 1 := by
      rw [hentries]
      simp
    rw [hlen, hentries]
    exact hv
  · -- Mono
    intro pid2 p2 hp2
    by_cases hcase : pid2 = p.id
    · subst hcase
      have hpp : p2 = p := by
        rw [hp] at hp2
        exact (Option.some.injEq _ _ ▸ hp2).symm
      refine ⟨{ p with status := "approved", resolvedAt := some o.now }, ?_, ?_⟩
      · rw [hget, getCommit_updateCommitStatus, hp]
        rfl
      · exact Or.inr ⟨by rw [hpp, hpend], Or.inl rfl⟩
    · refine ⟨p2, ?_, Or.inl rfl⟩
      rw [hget, getCommit_updateCommitStatus_other _ _ _ _ _ hcase]
      exact hp2

theorem mono_trans {o1 o2 o3 : Orchestrator} (h12 : Mono o1 o2)
    (h23 : Mono o2 o3) : Mono o1 o3 := by
  intro pid p hp
  rcases h12 pid p hp with ⟨p2, hp2, hcase⟩
  rcases h23 pid p2 hp2 with ⟨p3, hp3, hcase2⟩
  refine ⟨p3, hp3, ?_⟩
  rcases hcase with heq | ⟨hpend, hterm⟩
  · rcases hcase2 with heq2 | ⟨hpend2, hterm2⟩
    · exact Or.inl (heq2.trans heq)
    · exact Or.inr ⟨by rw [← heq, hpend2], hterm2⟩
  · rcases hcase2 with heq2 | ⟨hpend2, hterm2⟩
    · refine Or.inr ⟨hpend, ?_⟩
      rcases hterm with ht | ht
      · exact Or.inl (by rw [heq2, ht])
      · exact Or.inr (by rw [heq2, ht])
    · rcases hterm with ht | ht <;> rw [ht] at hpend2 <;>
        exact absurd hpend2 (by simp)

/-- Frame preservation: a call part that does not touch the proposal table,
the ledger, or the matching event counts keeps `Inv`, and trivially `Mono`. -/
theorem inv_mono_frame (o o2 : Orchestrator)
    (hcommits : o2.db.commits = o.db.commits)
    (hentries : o2.db.contextEntries = o.db.contextEntries)
    (hmembers : ∀ m ∈ o2.db.members, m.id < o2.nextId)
    (hnext : o.nextId ≤ o2.nextId)
    (hcr : ∀ pid, countResolved o2 pid = countResolved o pid)
    (hcu : ∀ pid, countContextUpdated o2 pid = countContextUpdated o pid)
    (h : Inv o) : Inv o2 ∧ Mono o o2 := by
  have hget : ∀ pid, getCommit o2.db pid = getCommit o.db pid :=
    fun pid => getCommit_congr pid hcommits
  refine ⟨⟨hmembers, ?_, ?_, ?_, ?_, ?_, ?_, ?_, ?_, ?_, ?_⟩, ?_⟩
  · intro c hc
    rw [hcommits] at hc
    have := h.commitIdLt c hc
    omega
  · rw [hcommits]
    exact h.commitIdNodup
  · rw [hcommits]
    exact h.statusValid
  · intro c hc
    rw [hcommits] at hc
    rw [hcr]
    exact h.resolvedCount c hc
  · intro pid hnone
    rw [hget] at hnone
    rw [hcr]
    exact h.resolvedNone pid hnone
  · intro c hc
    rw [hcommits] at hc
    rw [hentries]
    exact h.ctxCount c hc
  · intro c hc
    rw [hcommits] at hc
    rw [hcu]
    exact h.ctxEvents c hc
  · intro pid hnone
    rw [hget] at hnone
    rw [hcu]
    exact h.ctxNone pid hnone
  · intro e he
    rw [hentries] at he
    rw [hcommits]
    exact h.entryLink e he
  · rw [hentries]
    exact h.versions
  · intro pid p hp
    exact ⟨p, (hget pid).symm ▸ hp, Or.inl rfl⟩

/-- `Inv` and `Mono` are preserved by `_evaluate_consensus` on a stored
pending proposal. -/
theorem inv_mono_evaluate (o : Orchestrator) {pid : Nat} {p : CommitProposal}
    (h : Inv o) (hp : getCommit o.db pid = some p) (hpend : p.status = "pending") :
    Inv (evaluateConsensus o pid).2 ∧ Mono o (evaluateConsensus o pid).2 := by
  have hp' : List.find? (fun c => c.id == pid) o.db.commits = some p := hp
  have hid : p.id = pid := getCommit_id hp
  have hp2 : getCommit o.db p.id = some p := by rw [hid]; exact hp
  simp only [evaluateConsensus, getCommit, hp']
  split_ifs <;>
    first
      | exact ⟨h, mono_refl o⟩
      | exact inv_mono_resolveCommit o _ h hp hpend
      | exact inv_mono_commitToContext o h hp2 hpend

theorem getCommit_append_left {db db2 : SquadDatabase} {pid : Nat}
    {newc : CommitProposal} (hc : db2.commits = db.commits ++ [newc]) {p : CommitProposal}
    (hp : getCommit db pid = some p) : getCommit db2 pid = some p := by
  unfold getCommit at *
  rw [hc, List.find?_append, hp]
  rfl

/-- `Inv` and `Mono` are preserved by a call part that appends one fresh
pending proposal and does not touch the ledger or matching event counts
(`propose_commit`). -/
theorem inv_mono_addCommit (o o2 : Orchestrator) (newc : CommitProposal)
    (hcommits : o2.db.commits = o.db.commits ++ [newc])
    (hentries : o2.db.contextEntries = o.db.contextEntries)
    (hmembers : ∀ m ∈ o2.db.members, m.id < o2.nextId)
    (hnextlt : o.nextId < o2.nextId)
    (hid : newc.id = o.nextId)
    (hstat : newc.status = "pending")
    (hcr : ∀ pid, countResolved o2 pid = countResolved o pid)
    (hcu : ∀ pid, countContextUpdated o2 pid = countContextUpdated o pid)
    (h : Inv o) : Inv o2 ∧ Mono o o2 := by
  have hnone : getCommit o.db newc.id = none := by
    rw [hid]
    exact getCommit_none_of_lt h.commitIdLt
  have hentryne : ∀ e ∈ o.db.contextEntries, (e.commitId == newc.id) = false := by
    intro e he
    rcases h.entryLink e he with ⟨c, hc, hcid, _, _⟩
    have := h.commitIdLt c hc
    simp only [beq_eq_false_iff_ne, ne_eq, hid]
    omega
  have hpersist : ∀ pid, getCommit o2.db pid = none → getCommit o.db pid = none := by
    intro pid hnone2
    unfold getCommit at hnone2 ⊢
    rw [hcommits, List.find?_append] at hnone2
    cases hfind : List.find? (fun c => c.id == pid) o.db.commits with
    | none => rfl
    | some c =>
      rw [hfind] at hnone2
      exact Option.noConfusion hnone2
  refine ⟨⟨hmembers, ?_, ?_, ?_, ?_, ?_, ?_, ?_, ?_, ?_, ?_⟩, ?_⟩
  · intro c hc
    rw [hcommits] at hc
    rcases List.mem_append.mp hc with hc1 | hc1
    · have := h.commitIdLt c hc1
      omega
    · have : c = newc := by simpa using hc1
      rw [this, hid]
      exact hnextlt
  · rw [hcommits, List.map_append]
    apply List.Nodup.append h.commitIdNodup (by simp)
    intro a ha hb
    simp only [List.map_cons, List.map_nil, List.mem_singleton] at hb
    rcases List.mem_map.mp ha with ⟨c, hc, rfl⟩
    have := h.commitIdLt c hc
    rw [hb, hid] at this
    omega
  · intro c hc
    rw [hcommits] at hc
    rcases List.mem_append.mp hc with hc1 | hc1
    · exact h.statusValid c hc1
    · have : c = newc := by simpa using hc1
      rw [this, hstat]
      exact Or.inl rfl
  · intro c hc
    rw [hcommits] at hc
    rw [hcr]
    rcases List.mem_append.mp hc with hc1 | hc1
    · exact h.resolvedCount c hc1
    · have hcn : c = newc := by simpa using hc1
      rw [hcn, hstat, if_pos rfl]
      exact h.resolvedNone newc.id hnone
  · intro pid hnone2
    rw [hcr]
    exact h.resolvedNone pid (hpersist pid hnone2)
  · intro c hc
    rw [hcommits] at hc
    rw [hentries]
    rcases List.mem_append.mp hc with hc1 | hc1
    · exact h.ctxCount c hc1
    · have hcn : c = newc := by simpa using hc1
      subst hcn
      rw [hstat, List.filter_eq_nil_iff.mpr (by simpa using hentryne)]
      simp
  · intro c hc
    rw [hcommits] at hc
    rw [hcu]
    rcases List.mem_append.mp hc with hc1 | hc1
    · exact h.ctxEvents c hc1
    · have hcn : c = newc := by simpa using hc1
      subst hcn
      have h0 := h.ctxNone c.id hnone
      rw [hstat]
      simpa using h0
  · intro pid hnone2
    rw [hcu]
    exact h.ctxNone pid (hpersist pid hnone2)
  · intro e he
    rw [hentries] at he
    rcases h.entryLink e he with ⟨c, hc, hcid, happ, hcont⟩
    refine ⟨c, ?_, hcid, happ, hcont⟩
    rw [hcommits]
    exact List.mem_append_left _ hc
  · rw [hentries]
    exact h.versions
  · intro pid p hp
    exact ⟨p, getCommit_append_left hcommits hp, Or.inl rfl⟩

/-- Frame step followed by `_evaluate_consensus` (the success path of
`vote`). -/
theorem inv_mono_frame_then_evaluate (o o3 : Orchestrator) (pid : Nat)
    (hcommits : o3.db.commits = o.db.commits)
    (hentries : o3.db.contextEntries = o.db.contextEntries)
    (hmembers : ∀ m ∈ o3.db.members, m.id < o3.nextId)
    (hnext : o.nextId ≤ o3.nextId)
    (hcr : ∀ pid2, countResolved o3 pid2 = countResolved o pid2)
    (hcu : ∀ pid2, countContextUpdated o3 pid2 = countContextUpdated o pid2)
    {p : CommitProposal} (hp : getCommit o.db pid = some p)
    (hpend : p.status = "pending") (h : Inv o) :
    Inv (evaluateConsensus o3 pid).2 ∧ Mono o (evaluateConsensus o3 pid).2 := by
  obtain ⟨h3, m3⟩ := inv_mono_frame o o3 hcommits hentries hmembers hnext hcr hcu h
  have hp3 : getCommit o3.db pid = some p := by
    rw [getCommit_congr pid hcommits]
    exact hp
  obtain ⟨h4, m4⟩ := inv_mono_evaluate o3 h3 hp3 hpend
  exact ⟨h4, mono_trans m3 m4⟩

/-- Every engine call preserves `Inv` and moves proposal statuses only
pending-to-terminal. -/
theorem inv_mono_step (o : Orchestrator) (op : Op) (h : Inv o) :
    Inv (step o op) ∧ Mono o (step o op) := by
  cases op with
  | join name model =>
    cases hm : getMemberByName o.db name with
    | some m =>
      simp only [step, join, hm]
      exact ⟨h, mono_refl o⟩
    | none =>
      simp only [step, join, hm, pushMessage, broadcast, addMember, addMessage]
      refine inv_mono_frame o _ rfl rfl ?_ ?_ ?_ ?_ h
      · intro m2 hm2
        simp only [] at hm2
        rcases List.mem_append.mp hm2 with h1 | h1
        · have := h.memberIdLt m2 (List.mem_of_mem_filter h1)
          show m2.id < o.nextId + 1 + 1
          omega
        · have h2 : m2 = ⟨o.nextId, name, model, o.now, true⟩ := by simpa using h1
          rw [h2]
          show o.nextId < o.nextId + 1 + 1
          omega
      · show o.nextId ≤ o.nextId + 1 + 1
        omega
      · intro pid
        exact countResolved_of_events pid (List.append_assoc _ _ _)
          (by intro e he; simp at he; rcases he with rfl | rfl <;> rfl)
      · intro pid
        exact countContextUpdated_of_events pid (List.append_assoc _ _ _)
          (by intro e he; simp at he; rcases he with rfl | rfl <;> rfl)
  | leave name =>
    cases hm : getMemberByName o.db name with
    | none =>
      simp only [step, leave, hm]
      exact ⟨h, mono_refl o⟩
    | some member =>
      simp only [step, leave, hm, pushMessage, broadcast, removeMember, addMessage]
      refine inv_mono_frame o _ rfl rfl ?_ ?_ ?_ ?_ h
      · intro m2 hm2
        simp only [] at hm2
        rcases List.mem_map.mp hm2 with ⟨m1, hm1, rfl⟩
        have hlt := h.memberIdLt m1 hm1
        show (if m1.id = member.id then { m1 with isActive := false } else m1).id <
          o.nextId + 1
        by_cases h1 : m1.id = member.id <;> simp [h1] <;> omega
      · show o.nextId ≤ o.nextId + 1
        omega
      · intro pid
        exact countResolved_of_events pid (List.append_assoc _ _ _)
          (by intro e he; simp at he; rcases he with rfl | rfl <;> rfl)
      · intro pid
        exact countContextUpdated_of_events pid (List.append_assoc _ _ _)
          (by intro e he; simp at he; rcases he with rfl | rfl <;> rfl)
  | sendMessage sender content senderType replyTo =>
    cases hm : getMemberByName o.db sender with
    | none =>
      simp only [step, sendMessage, hm]
      exact ⟨h, mono_refl o⟩
    | some member =>
      simp only [step, sendMessage, hm, pushMessage, broadcast, addMessage]
      refine inv_mono_frame o _ rfl rfl ?_ ?_ ?_ ?_ h
      · intro m2 hm2
        simp only [] at hm2
        have := h.memberIdLt m2 hm2
        show m2.id < o.nextId + 1
        omega
      · show o.nextId ≤ o.nextId + 1
        omega
      · intro pid
        refine countResolved_of_events pid rfl ?_
        intro e he
        simp at he
        rw [he]
        rfl
      · intro pid
        refine countContextUpdated_of_events pid rfl ?_
        intro e he
        simp at he
        rw [he]
        rfl
  | proposeCommit proposer content origin =>
    by_cases hcond : (getMemberByName o.db proposer).isNone = true ∧
        origin ≠ "orchestrator_detected"
    · simp only [step, proposeCommit, if_pos hcond]
      exact ⟨h, mono_refl o⟩
    · simp only [step, proposeCommit, if_neg hcond, pushMessage, broadcast,
        addCommit, addMessage]
      refine inv_mono_addCommit o _ _ rfl rfl ?_ ?_ rfl rfl ?_ ?_ h
      · intro m2 hm2
        simp only [] at hm2
        have := h.memberIdLt m2 hm2
        show m2.id < o.nextId + 1 + 1
        omega
      · show o.nextId < o.nextId + 1 + 1
        omega
      · intro pid
        exact countResolved_of_events pid (List.append_assoc _ _ _)
          (by intro e he; simp at he; rcases he with rfl | rfl <;> rfl)
      · intro pid
        exact countContextUpdated_of_events pid (List.append_assoc _ _ _)
          (by intro e he; simp at he; rcases he with rfl | rfl <;> rfl)
  | vote voter cid choice hov =>
    cases hm : getMemberByName o.db voter with
    | none =>
      simp only [step, vote, hm]
      exact ⟨h, mono_refl o⟩
    | some member =>
      cases hc : getCommit o.db cid with
      | none =>
        simp only [step, vote, hm, hc]
        exact ⟨h, mono_refl o⟩
      | some proposal =>
        by_cases hst : proposal.status ≠ "pending"
        · simp only [step, vote, hm, hc, if_pos hst]
          exact ⟨h, mono_refl o⟩
        · by_cases hch : choice ≠ "approve" ∧ choice ≠ "reject" ∧ choice ≠ "abstain"
          · simp only [step, vote, hm, hc, if_neg hst, if_pos hch]
            exact ⟨h, mono_refl o⟩
          · have hpendp : proposal.status = "pending" := not_ne_iff.mp hst
            simp only [step, vote, hm, hc, if_neg hst, if_neg hch, pushMessage,
              broadcast, addVote, addMessage]
            refine inv_mono_frame_then_evaluate o _ cid rfl rfl ?_ ?_ ?_ ?_ hc hpendp h
            · intro m2 hm2
              simp only [] at hm2
              have := h.memberIdLt m2 hm2
              show m2.id < o.nextId + 1 + 1
              omega
            · show o.nextId ≤ o.nextId + 1 + 1
              omega
            · intro pid
              exact countResolved_of_events pid (List.append_assoc _ _ _)
                (by intro e he; simp at he; rcases he with rfl | rfl <;> rfl)
            · intro pid
              exact countContextUpdated_of_events pid (List.append_assoc _ _ _)
                (by intro e he; simp at he; rcases he with rfl | rfl <;> rfl)

/-- `Inv` holds in every state reachable from a fresh engine. -/
theorem inv_run (o : Orchestrator) (ops : List Op) (h : Inv o) :
    Inv (run o ops) := by
  induction ops generalizing o with
  | nil => exact h
  | cons op t ih => exact ih _ (inv_mono_step o op h).1

theorem run_append (o : Orchestrator) (ops : List Op) (op : Op) :
    run o (ops ++ [op]) = step (run o ops) op := by
  unfold run
  rw [List.foldl_append]
  rfl

theorem statusOf_eq_some {o : Orchestrator} {pid : Nat} {s : String}
    (h : statusOf o pid = some s) :
    ∃ c, getCommit o.db pid = some c ∧ c.status = s := by
  unfold statusOf at h
  cases hc : getCommit o.db pid with
  | none => rw [hc] at h; exact Option.noConfusion h
  | some c =>
    rw [hc] at h
    exact ⟨c, rfl, by simpa using h⟩

theorem statusOf_eq_none {o : Orchestrator} {pid : Nat}
    (h : statusOf o pid = none) : getCommit o.db pid = none := by
  unfold statusOf at h
  cases hc : getCommit o.db pid with
  | none => rfl
  | some c => rw [hc] at h; exact Option.noConfusion h

/-- No reachable state ever stores the status `"expired"`: the only status
writes in the source are `"approved"` and `"rejected"`. -/
theorem never_expired_general (o : Orchestrator) (h : Inv o) (ops : List Op)
    (pid : Nat) : statusOf (run o ops) pid ≠ some "expired" := by
  intro hexp
  have hInv : Inv (run o ops) := inv_run o ops h
  rcases statusOf_eq_some hexp with ⟨c, hc, hst⟩
  have hmem := getCommit_mem hc
  rcases hInv.statusValid c hmem with h1 | h1 | h1 <;> rw [h1] at hst <;>
    exact absurd hst (by simp)

theorem run_run (o : Orchestrator) (a b : List Op) :
    run (run o a) b = run o (a ++ b) := by
  unfold run
  rw [List.foldl_append]

end SquadBot

/-- C5: proposal statuses change at most once, from `pending` to a terminal
status, and never leave a terminal status; exactly one `commit_resolved`
event is broadcast per resolved proposal (zero while it is pending or
unknown); and a vote cast on a non-pending proposal fails with an
already-resolved error and leaves the state unchanged. -/
theorem c5_terminal_status_single_resolution :
    (∀ (mode : String) (ops : List SquadBot.Op) (pid : Nat),
      (SquadBot.statusOf (SquadBot.run (SquadBot.initOrchestrator mode) ops) pid =
          none →
        SquadBot.countResolved (SquadBot.run (SquadBot.initOrchestrator mode) ops)
          pid = 0) ∧
      (SquadBot.statusOf (SquadBot.run (SquadBot.initOrchestrator mode) ops) pid =
          some "pending" →
        SquadBot.countResolved (SquadBot.run (SquadBot.initOrchestrator mode) ops)
          pid = 0) ∧
      (∀ s, SquadBot.statusOf (SquadBot.run (SquadBot.initOrchestrator mode) ops)
          pid = some s → s ≠ "pending" →
        (s = "approved" ∨ s = "rejected") ∧
          SquadBot.countResolved (SquadBot.run (SquadBot.initOrchestrator mode) ops)
            pid = 1)) ∧
    (∀ (mode : String) (ops : List SquadBot.Op) (op : SquadBot.Op),
      SquadBot.Mono (SquadBot.run (SquadBot.initOrchestrator mode) ops)
        (SquadBot.run (SquadBot.initOrchestrator mode) (ops ++ [op]))) ∧
    (∀ (o : SquadBot.Orchestrator) (voter : String) (pid : Nat)
        (m : SquadBot.SquadMember) (p : SquadBot.CommitProposal)
        (choice : String) (hov : Bool),
      SquadBot.getMemberByName o.db voter = some m →
      SquadBot.getCommit o.db pid = some p →
      p.status ≠ "pending" →
      SquadBot.vote o voter pid choice hov =
        (.err s!"Commit {pid} is already {p.status}", o)) := by
  refine ⟨fun mode ops pid => ?_, fun mode ops op => ?_, ?_⟩
  · have hInv : SquadBot.Inv (SquadBot.run (SquadBot.initOrchestrator mode) ops) :=
      SquadBot.inv_run _ ops (SquadBot.inv_init mode)
    refine ⟨fun hn => hInv.resolvedNone pid (SquadBot.statusOf_eq_none hn),
      fun hp => ?_, fun s hs hsne => ?_⟩
    · rcases SquadBot.statusOf_eq_some hp with ⟨c, hc, hst⟩
      have := hInv.resolvedCount c (SquadBot.getCommit_mem hc)
      rw [SquadBot.getCommit_id hc] at this
      rw [this, if_pos hst]
    · rcases SquadBot.statusOf_eq_some hs with ⟨c, hc, hst⟩
      have hcount := hInv.resolvedCount c (SquadBot.getCommit_mem hc)
      rw [SquadBot.getCommit_id hc] at hcount
      have hval := hInv.statusValid c (SquadBot.getCommit_mem hc)
      rw [hst] at hval
      rcases hval with h1 | h1
      · exact absurd h1 hsne
      · exact ⟨h1, by rw [hcount, if_neg (hst ▸ (hst.symm ▸ hsne))]⟩
  · rw [SquadBot.run_append]
    exact (SquadBot.inv_mono_step _ op
      (SquadBot.inv_run _ ops (SquadBot.inv_init mode))).2
  · intro o voter pid m p choice hov hm hp hst
    simp only [SquadBot.vote, hm, hp, if_pos hst]

/-- Witness for C5 (third conjunct): voting on an already-approved proposal
fails with the already-resolved error and changes nothing. -/
theorem c5_terminal_status_single_resolution_witness :
    SquadBot.vote
        { db :=
            { members := [⟨0, "Ava", "claude", 0, true⟩]
              messages := []
              contextEntries := []
              commits := [⟨10, "ship it", .member 0, "Ava", "agent_nominated",
                "approved", 0, some 3, "majority", 300⟩]
              votes := [] }
          consensusMode := "majority"
          events := []
          nextId := 30
          now := 5 } "Ava" 10 "approve" false =
      (.err "Commit 10 is already approved",
        { db :=
            { members := [⟨0, "Ava", "claude", 0, true⟩]
              messages := []
              contextEntries := []
              commits := [⟨10, "ship it", .member 0, "Ava", "agent_nominated",
                "approved", 0, some 3, "majority", 300⟩]
              votes := [] }
          consensusMode := "majority"
          events := []
          nextId := 30
          now := 5 }) :=
  c5_terminal_status_single_resolution.2.2
    { db :=
        { members := [⟨0, "Ava", "claude", 0, true⟩]
          messages := []
          contextEntries := []
          commits := [⟨10, "ship it", .member 0, "Ava", "agent_nominated",
            "approved", 0, some 3, "majority", 300⟩]
          votes := [] }
      consensusMode := "majority"
      events := []
      nextId := 30
      now := 5 } "Ava" 10 ⟨0, "Ava", "claude", 0, true⟩
    ⟨10, "ship it", .member 0, "Ava", "agent_nominated", "approved", 0, some 3,
      "majority", 300⟩ "approve" false rfl rfl (by decide)

/-- C7: in every reachable state, each `ContextEntry` points to a stored
proposal that is `approved` with the same content; each approved proposal has
exactly one ledger entry and a non-approved one has none; `context_updated`
is broadcast exactly once per approved proposal; and `readAll`
(`get_context`) returns the stored entries in their creation (approval)
order. -/
theorem c7_ledger_matches_approvals (mode : String) (ops : List SquadBot.Op) :
    (∀ e ∈ (SquadBot.run (SquadBot.initOrchestrator mode) ops).db.contextEntries,
      ∃ c ∈ (SquadBot.run (SquadBot.initOrchestrator mode) ops).db.commits,
        c.id = e.commitId ∧ c.status = "approved" ∧ c.content = e.content) ∧
    (∀ c ∈ (SquadBot.run (SquadBot.initOrchestrator mode) ops).db.commits,
      ((SquadBot.run (SquadBot.initOrchestrator mode) ops).db.contextEntries.filter
        (fun e => e.commitId == c.id)).length =
          if c.status = "approved" then 1 else 0) ∧
    (∀ c ∈ (SquadBot.run (SquadBot.initOrchestrator mode) ops).db.commits,
      SquadBot.countContextUpdated (SquadBot.run (SquadBot.initOrchestrator mode) ops)
        c.id = if c.status = "approved" then 1 else 0) ∧
    SquadBot.getContext (SquadBot.run (SquadBot.initOrchestrator mode) ops).db =
      (SquadBot.run (SquadBot.initOrchestrator mode) ops).db.contextEntries := by
  have hInv : SquadBot.Inv (SquadBot.run (SquadBot.initOrchestrator mode) ops) :=
    SquadBot.inv_run _ ops (SquadBot.inv_init mode)
  exact ⟨hInv.entryLink, hInv.ctxCount, hInv.ctxEvents,
    SquadBot.getContext_of_versions hInv.versions⟩

/-- The temporal statement the no-objection claim makes about expiry,
packaged as a closed proposition: along no sequence of engine calls does the
proposal ever carry status `"expired"`. -/
structure NeverExpires (o : SquadBot.Orchestrator) (pid : Nat) : Prop where
  never : ∀ ops : List SquadBot.Op,
    SquadBot.statusOf (SquadBot.run o ops) pid ≠ some "expired"

/-- C10 (amended): in no-objection mode with no human-veto rejection on
file, evaluation of a pending proposal resolves `rejected` with reason
`objection_raised` as soon as any reject vote is on file; with no reject
vote the result is the `pending` snapshot and the state is returned
unchanged; and no reachable state ever assigns status `expired` — the
time-based sweep the spec mentions does not exist in the code. -/
theorem c10_no_objection_never_expires :
    (∀ (o : SquadBot.Orchestrator) (pid : Nat) (p : SquadBot.CommitProposal),
      SquadBot.getCommit o.db pid = some p →
      p.consensusMode = "no_objection" →
      p.status = "pending" →
      (∀ v ∈ SquadBot.getVotesForCommit o.db pid,
        ¬(v.choice = "reject" ∧ v.isHumanOverride = true)) →
      (((SquadBot.getVotesForCommit o.db pid).filter
            (fun v => v.choice == "reject")).length > 0 →
        (SquadBot.evaluateConsensus o pid).1 =
            .decided "rejected" "objection_raised" ∧
          SquadBot.statusOf (SquadBot.evaluateConsensus o pid).2 pid =
            some "rejected") ∧
      (((SquadBot.getVotesForCommit o.db pid).filter
            (fun v => v.choice == "reject")).length = 0 →
        (SquadBot.evaluateConsensus o pid).1 =
            .pending (SquadBot.getVotesForCommit o.db pid).length
              (SquadBot.getActiveMembers o.db).length
              ((SquadBot.getVotesForCommit o.db pid).filter
                (fun v => v.choice == "approve")).length
              ((SquadBot.getVotesForCommit o.db pid).filter
                (fun v => v.choice == "reject")).length ∧
          (SquadBot.evaluateConsensus o pid).2 = o)) ∧
    (∀ (mode : String) (ops : List SquadBot.Op) (pid : Nat),
      SquadBot.statusOf (SquadBot.run (SquadBot.initOrchestrator mode) ops) pid ≠
        some "expired") := by
  constructor
  · intro o pid p hp hmode _hpend hveto
    have hp' : List.find? (fun c => c.id == pid) o.db.commits = some p := hp
    have hr : List.filter (fun v => v.choice == "reject" && v.isHumanOverride)
        (SquadBot.getVotesForCommit o.db pid) = [] :=
      SquadBot.filter_veto_eq_nil hveto
    refine ⟨fun hrej => ?_, fun hrej => ?_⟩ <;>
      simp only [SquadBot.evaluateConsensus, SquadBot.getCommit, hp'] <;>
      split_ifs <;>
      first
        | exact ⟨rfl, SquadBot.statusOf_resolveCommit _ _ hp⟩
        | exact ⟨rfl, rfl⟩
        | omega
        | simp_all
  · intro mode ops pid
    exact SquadBot.never_expired_general _ (SquadBot.inv_init mode) ops pid

/-- A concrete no-objection state: Ava joins, proposes; the proposal (id 2)
is pending in mode `no_objection` with no votes at all. -/
def noObjectionState : SquadBot.Orchestrator :=
  SquadBot.run (SquadBot.initOrchestrator "no_objection")
    [.join "Ava" "claude", .proposeCommit "Ava" "ship it" "agent_nominated"]

/-- Counterexample to C10 as stated: in `noObjectionState` proposal 2 is
pending in mode `no_objection` with no votes (so no rejections), yet it is
never assigned status `expired` along any continuation — there is no
time-driven expiry in the code, so "is eventually (and only then) assigned
status expired" is false at this input. -/
theorem c10_no_expiry_counterexample :
    SquadBot.statusOf noObjectionState 2 = some "pending" ∧
      (SquadBot.getCommit noObjectionState.db 2).map
        (fun c => c.consensusMode) = some "no_objection" ∧
      SquadBot.getVotesForCommit noObjectionState.db 2 = [] ∧
      NeverExpires noObjectionState 2 :=
  ⟨by decide, by decide, by decide,
    ⟨fun ops => SquadBot.never_expired_general noObjectionState
      (SquadBot.inv_run _ _ (SquadBot.inv_init "no_objection")) ops 2⟩⟩

/-- Witness for C10 (amended): a single non-override reject from Ava on
proposal 2 resolves it `rejected`/`objection_raised`. -/
theorem c10_no_objection_never_expires_witness :
    ((SquadBot.evaluateConsensus
        { noObjectionState with
            db := SquadBot.addVote noObjectionState.db
              ⟨20, 2, 0, "Ava", "reject", false, 9⟩ } 2).1 =
      .decided "rejected" "objection_raised" ∧
      SquadBot.statusOf (SquadBot.evaluateConsensus
        { noObjectionState with
            db := SquadBot.addVote noObjectionState.db
              ⟨20, 2, 0, "Ava", "reject", false, 9⟩ } 2).2 2 = some "rejected") :=
  ((c10_no_objection_never_expires.1
      { noObjectionState with
          db := SquadBot.addVote noObjectionState.db
            ⟨20, 2, 0, "Ava", "reject", false, 9⟩ } 2
      ⟨2, "ship it", .member 0, "Ava", "agent_nominated", "pending", 0, none,
        "no_objection", 300⟩
      (by decide) rfl rfl (by decide)).1 (by decide))

namespace SquadBot

theorem getMemberByName_spec {db : SquadDatabase} {name : String}
    {m : SquadMember} (h : getMemberByName db name = some m) :
    m ∈ db.members ∧ m.name = name ∧ m.isActive = true := by
  unfold getMemberByName at h
  have hmem : m ∈ db.members.filter (fun x => x.name == name && x.isActive) :=
    List.mem_of_mem_head? (by rw [h]; rfl)
  have := List.mem_filter.mp hmem
  refine ⟨this.1, ?_, ?_⟩ <;> have hb := this.2 <;>
    simp only [Bool.and_eq_true, beq_iff_eq] at hb
  · exact hb.1
  · exact hb.2

end SquadBot

/-- C9: after a successful `leave(name)`, `join(name)` succeeds again (the
deactivation frees the name) and creates a member with a fresh id distinct
from the original member's id; the original member record remains stored,
deactivated; and the messages and votes recorded before the leave keep their
original sender/voter id — the leave/join pair adds only orchestrator-sent
system messages and never touches the vote table. -/
theorem c9_rejoin_distinct_id (o : SquadBot.Orchestrator) (name model : String)
    (m : SquadBot.SquadMember)
    (hm : SquadBot.getMemberByName o.db name = some m)
    (hunique : ∀ x ∈ o.db.members, x.name = name → x.isActive = true → x.id = m.id)
    (hfresh : ∀ x ∈ o.db.members, x.id < o.nextId) :
    (SquadBot.leave o name).1 = .ok () ∧
      (SquadBot.join (SquadBot.leave o name).2 name model).1 =
        .ok ⟨o.nextId + 1, name, model, o.now, true⟩ ∧
      m.id ≠ o.nextId + 1 ∧
      { m with isActive := false } ∈
        (SquadBot.join (SquadBot.leave o name).2 name model).2.db.members ∧
      (SquadBot.join (SquadBot.leave o name).2 name model).2.db.messages.filter
          (fun msg => msg.senderId == SquadBot.SenderId.member m.id) =
        o.db.messages.filter
          (fun msg => msg.senderId == SquadBot.SenderId.member m.id) ∧
      (SquadBot.join (SquadBot.leave o name).2 name model).2.db.votes =
        o.db.votes := by
  obtain ⟨hmem, hname, hact⟩ := SquadBot.getMemberByName_spec hm
  have hmid := hfresh m hmem
  have hfilter : List.filter (fun x => x.name == name && x.isActive)
      (o.db.members.map (fun x =>
        if x.id = m.id then { x with isActive := false } else x)) = [] := by
    rw [List.filter_eq_nil_iff]
    intro x1 hx1
    rcases List.mem_map.mp hx1 with ⟨x, hx, rfl⟩
    by_cases hxid : x.id = m.id
    · simp [hxid]
    · simp only [if_neg hxid, Bool.and_eq_true, beq_iff_eq, not_and]
      intro hxname hxact
      exact absurd (hunique x hx hxname hxact) hxid
  have hm' : (o.db.members.filter (fun x => x.name == name && x.isActive)).head? =
      some m := hm
  simp only [SquadBot.leave, SquadBot.join, SquadBot.pushMessage,
    SquadBot.broadcast, SquadBot.removeMember, SquadBot.addMessage,
    SquadBot.addMember, SquadBot.getMemberByName, hm', hfilter, List.head?_nil]
  refine ⟨trivial, trivial, by omega, ?_, ?_, trivial⟩
  · apply List.mem_append_left
    rw [List.mem_filter]
    constructor
    · have : (if m.id = m.id then { m with isActive := false } else m) =
          { m with isActive := false } := if_pos rfl
      exact this ▸ List.mem_map_of_mem _ hmem
    · simp only [bne_iff_ne, ne_eq, decide_eq_true_eq]
      show ¬({ m with isActive := false } : SquadBot.SquadMember).id = o.nextId + 1
      simp only []
      omega
  · rw [List.filter_append, List.filter_append]
    simp [List.filter,
      show (SquadBot.SenderId.orchestrator == SquadBot.SenderId.member m.id) = false from
        rfl]

/-- A concrete state for the C9 witness: Ava (id 0) and Ben (id 1) are
active; a message and a vote by Ava are on file. -/
def rejoinState : SquadBot.Orchestrator :=
  { db :=
      { members := [⟨0, "Ava", "claude", 0, true⟩, ⟨1, "Ben", "gpt", 0, true⟩]
        messages := [⟨5, .member 0, "Ava", "agent", "hello", 1, none⟩]
        contextEntries := []
        commits := [⟨6, "ship it", .member 0, "Ava", "agent_nominated", "pending",
          0, none, "majority", 300⟩]
        votes := [⟨7, 6, 0, "Ava", "approve", false, 2⟩] }
    consensusMode := "majority"
    events := []
    nextId := 10
    now := 5 }

/-- Witness for C9: leaving and rejoining as Ava succeeds, yields the fresh
id 11 distinct from the original id 0, keeps the deactivated original
record, and leaves Ava's prior message and vote attributed to id 0. -/
theorem c9_rejoin_distinct_id_witness :
    SquadBot.getMemberByName rejoinState.db "Ava" =
        some ⟨0, "Ava", "claude", 0, true⟩ ∧
      ((SquadBot.leave rejoinState "Ava").1 = .ok () ∧
        (SquadBot.join (SquadBot.leave rejoinState "Ava").2 "Ava" "claude").1 =
          .ok ⟨rejoinState.nextId + 1, "Ava", "claude", rejoinState.now, true⟩ ∧
        (⟨0, "Ava", "claude", 0, true⟩ : SquadBot.SquadMember).id ≠
          rejoinState.nextId + 1 ∧
        ({ (⟨0, "Ava", "claude", 0, true⟩ : SquadBot.SquadMember) with
            isActive := false } ∈
          (SquadBot.join (SquadBot.leave rejoinState "Ava").2 "Ava"
            "claude").2.db.members) ∧
        (SquadBot.join (SquadBot.leave rejoinState "Ava").2 "Ava"
              "claude").2.db.messages.filter
            (fun msg => msg.senderId == SquadBot.SenderId.member
              (⟨0, "Ava", "claude", 0, true⟩ : SquadBot.SquadMember).id) =
          rejoinState.db.messages.filter
            (fun msg => msg.senderId == SquadBot.SenderId.member
              (⟨0, "Ava", "claude", 0, true⟩ : SquadBot.SquadMember).id) ∧
        (SquadBot.join (SquadBot.leave rejoinState "Ava").2 "Ava"
            "claude").2.db.votes = rejoinState.db.votes) :=
  ⟨rfl, c9_rejoin_distinct_id rejoinState "Ava" "claude"
    ⟨0, "Ava", "claude", 0, true⟩ rfl (by decide) (by decide)⟩

namespace SquadServer

/-!  The multi-squad engine (`src/squad-server/`).  Its `Message`,
`ContextEntry`, `CommitProposal` and `Vote` dataclasses are field-for-field
the ones of the single-squad engine and are reused from `SquadBot`; each
table row additionally carries the `squad_id` column, modelled as a row
wrapper.  `get_commit`, `update_commit_status` and `get_votes_for_commit`
filter by id only — they carry no `squad_id` condition in the source. -/

/-- `src/squad-server/models.py` `Squad`. -/
structure Squad where
  id : String
  name : String
  consensusMode : String
  sessionTtlHours : Nat
  fingerprintMode : String
  createdAt : Nat
  createdBy : String
  isActive : Bool
deriving DecidableEq, Repr

/-- `src/squad-server/models.py` `SquadMember` (adds `user_id`). -/
structure SquadMember where
  id : Nat
  name : String
  model : String
  joinedAt : Nat
  isActive : Bool
  userId : Option Nat
deriving DecidableEq, Repr

structure MemberRow where
  member : SquadMember
  squadId : String
deriving DecidableEq, Repr

structure MessageRow where
  message : SquadBot.Message
  squadId : String
deriving DecidableEq, Repr

structure EntryRow where
  entry : SquadBot.ContextEntry
  squadId : String
deriving DecidableEq, Repr

structure CommitRow where
  proposal : SquadBot.CommitProposal
  squadId : String
deriving DecidableEq, Repr

structure VoteRow where
  vote : SquadBot.Vote
  squadId : String
deriving DecidableEq, Repr

/-- `member_roles` row. -/
structure MemberRole where
  squadId : String
  memberId : Nat
  role : String
deriving DecidableEq, Repr

/-- `security_log` row (the fields the claims touch). -/
structure SecurityLogEntry where
  eventType : String
  squadId : Option String
  memberId : Option Nat
deriving DecidableEq, Repr

/-- `src/squad-server/database.py` `SquadDatabase`. -/
structure SquadDatabase where
  squads : List Squad
  members : List MemberRow
  messages : List MessageRow
  contextEntries : List EntryRow
  commits : List CommitRow
  votes : List VoteRow
  memberRoles : List MemberRole
  securityLog : List SecurityLogEntry
deriving DecidableEq, Repr

/-- The named optional fields `update_squad_settings` accepts
(`{"name", "consensus_mode", "session_ttl_hours", "fingerprint_mode"}`). -/
structure SquadSettings where
  name : Option String := none
  consensusMode : Option String := none
  sessionTtlHours : Option Nat := none
  fingerprintMode : Option String := none
deriving DecidableEq, Repr

/-- No recognized key present (`if not updates`). -/
def SquadSettings.noRec (st : SquadSettings) : Bool :=
  st.name.isNone && st.consensusMode.isNone && st.sessionTtlHours.isNone &&
    st.fingerprintMode.isNone

/-- Apply the present fields (the generated `SET` clause). -/
def applySettings (s : Squad) (st : SquadSettings) : Squad :=
  { s with
    name := st.name.getD s.name
    consensusMode := st.consensusMode.getD s.consensusMode
    sessionTtlHours := st.sessionTtlHours.getD s.sessionTtlHours
    fingerprintMode := st.fingerprintMode.getD s.fingerprintMode }

/-- `get_squad`. -/
def getSquad (db : SquadDatabase) (squadId : String) : Option Squad :=
  db.squads.find? (fun s => s.id == squadId)

/-- `update_squad`: `False` when no recognized key; else apply the `SET`
clause and report `rowcount > 0` (a squad row with this id exists). -/
def updateSquad (db : SquadDatabase) (squadId : String) (st : SquadSettings) :
    Bool × SquadDatabase :=
  if st.noRec then (false, db)
  else
    (db.squads.any (fun s => s.id == squadId),
      { db with squads := db.squads.map (fun s =>
          if s.id = squadId then applySettings s st else s) })

/-- `get_member_by_name(name, squad_id)`: active member of this squad. -/
def getMemberByName (db : SquadDatabase) (name : String) (squadId : String) :
    Option SquadMember :=
  ((db.members.filter (fun r =>
    r.member.name == name && r.squadId == squadId && r.member.isActive)).head?).map
      (fun r => r.member)

/-- `get_active_members(squad_id)`. -/
def getActiveMembers (db : SquadDatabase) (squadId : String) : List SquadMember :=
  (db.members.filter (fun r => r.member.isActive && r.squadId == squadId)).map
    (fun r => r.member)

/-- `add_message(message, squad_id)`. -/
def addMessage (db : SquadDatabase) (msg : SquadBot.Message) (squadId : String) :
    SquadDatabase :=
  { db with messages := db.messages ++ [⟨msg, squadId⟩] }

/-- `SELECT MAX(version) ... WHERE squad_id = ?`, `NULL` read as `0`. -/
def maxVersion (db : SquadDatabase) (squadId : String) : Nat :=
  (((db.contextEntries.filter (fun r => r.squadId == squadId)).map
    (fun r => r.entry.version)).foldr Nat.max 0)

/-- `add_context_entry(entry, squad_id)`: per-squad version assignment. -/
def addContextEntry (db : SquadDatabase) (entry : SquadBot.ContextEntry)
    (squadId : String) : SquadBot.ContextEntry × SquadDatabase :=
  let stored := { entry with version := maxVersion db squadId + 1 }
  (stored, { db with contextEntries := db.contextEntries ++ [⟨stored, squadId⟩] })

/-- `get_context(squad_id)`. -/
def getContext (db : SquadDatabase) (squadId : String) : List SquadBot.ContextEntry :=
  ((db.contextEntries.filter (fun r => r.squadId == squadId)).map
    (fun r => r.entry)).insertionSort (fun a b => a.version ≤ b.version)

/-- `add_commit(commit, squad_id)`. -/
def addCommit (db : SquadDatabase) (c : SquadBot.CommitProposal) (squadId : String) :
    SquadDatabase :=
  { db with commits := db.commits ++ [⟨c, squadId⟩] }

/-- `update_commit_status`: `WHERE id = ?` — no squad condition. -/
def updateCommitStatus (db : SquadDatabase) (commitId : Nat) (status : String)
    (resolvedAt : Option Nat) : SquadDatabase :=
  { db with commits := db.commits.map (fun r =>
      if r.proposal.id = commitId then
        { r with proposal :=
            { r.proposal with status := status, resolvedAt := resolvedAt } }
      else r) }

/-- `get_commit(commit_id)`: `WHERE id = ?` — no squad condition, and the
returned dataclass drops the row's `squad_id` column. -/
def getCommit (db : SquadDatabase) (commitId : Nat) : Option SquadBot.CommitProposal :=
  (db.commits.find? (fun r => r.proposal.id == commitId)).map (fun r => r.proposal)

/-- `add_vote(vote, squad_id)`: `INSERT OR REPLACE` under the primary key and
`UNIQUE(commit_id, voter_id)`. -/
def addVote (db : SquadDatabase) (v : SquadBot.Vote) (squadId : String) :
    SquadDatabase :=
  { db with votes := db.votes.filter (fun r =>
      r.vote.id != v.id && !(r.vote.commitId == v.commitId &&
        r.vote.voterId == v.voterId)) ++ [⟨v, squadId⟩] }

/-- `get_votes_for_commit(commit_id)`: `WHERE commit_id = ?` — no squad
condition. -/
def getVotesForCommit (db : SquadDatabase) (commitId : Nat) : List SquadBot.Vote :=
  (db.votes.filter (fun r => r.vote.commitId == commitId)).map (fun r => r.vote)

/-- `get_member_role` then `is_admin`. -/
def isAdmin (db : SquadDatabase) (squadId : String) (memberId : Nat) : Bool :=
  match db.memberRoles.find? (fun r =>
    r.squadId == squadId && r.memberId == memberId) with
  | some r => r.role == "admin"
  | none => false

/-- `log_security_event`. -/
def logSecurityEvent (db : SquadDatabase) (eventType : String)
    (squadId : Option String) (memberId : Option Nat) : SquadDatabase :=
  { db with securityLog := db.securityLog ++ [⟨eventType, squadId, memberId⟩] }

/-- Payload of a `_broadcast` call used by the modelled operations. -/
inductive EventData where
  | newMessage (msg : SquadBot.Message)
  | commitProposed (p : SquadBot.CommitProposal)
  | voteCast (v : SquadBot.Vote)
  | commitResolved (commitId : Nat) (status : String)
  | contextUpdated (e : SquadBot.ContextEntry)
deriving DecidableEq, Repr

/-- One broadcast event `{type, data, squad_id, timestamp}`. -/
structure Event where
  type : String
  data : EventData
  squadId : String
  timestamp : Nat
deriving DecidableEq, Repr

/-- `Orchestrator` state.  The listener fan-out and the webhook manager in
`_broadcast` are I/O outside the engine state; the event log records the
publishes. -/
structure Orchestrator where
  db : SquadDatabase
  consensusMode : String
  events : List Event
  nextId : Nat
  now : Nat
deriving DecidableEq, Repr

/-- `self._broadcast(event_type, data, squad_id)`. -/
def broadcast (o : Orchestrator) (type : String) (data : EventData)
    (squadId : String) : Orchestrator :=
  { o with events := o.events ++ [⟨type, data, squadId, o.now⟩] }

/-- Create a `Message` with a fresh id and `db.add_message` it. -/
def pushMessage (o : Orchestrator) (senderId : SquadBot.SenderId)
    (senderName senderType content : String) (replyTo : Option Nat)
    (squadId : String) : SquadBot.Message × Orchestrator :=
  let msg : SquadBot.Message :=
    ⟨o.nextId, senderId, senderName, senderType, content, o.now, replyTo⟩
  (msg, { o with nextId := o.nextId + 1, db := addMessage o.db msg squadId })

/-- `update_squad_settings(squad_id, admin_id, **settings)`. -/
def updateSquadSettings (o : Orchestrator) (squadId : String) (adminId : Nat)
    (settings : SquadSettings) :
    SquadBot.CallResult (Bool × SquadSettings) × Orchestrator :=
  if !(isAdmin o.db squadId adminId) then
    (.err "Admin access required", o)
  else if settings.noRec then
    (.err "No valid settings to update", o)
  else
    let upd := updateSquad o.db squadId settings
    let o := { o with db := upd.2 }
    let o := if upd.1 then
        { o with db :=
            logSecurityEvent o.db "settings_changed" (some squadId) (some adminId) }
      else o
    (.ok (upd.1, settings), o)

/-- `propose_commit(proposer_name, content, origin, squad_id)` — note
`consensus_mode=self.consensus_mode`: the orchestrator's constructor value,
not the squad's setting; `timeout_seconds` stays the dataclass default 300. -/
def proposeCommit (o : Orchestrator) (proposerName content origin : String)
    (squadId : String) : SquadBot.CallResult Nat × Orchestrator :=
  let member? := getMemberByName o.db proposerName squadId
  if member?.isNone ∧ origin ≠ "orchestrator_detected" then
    (.err s!"{proposerName} is not in the squad", o)
  else
    let proposal : SquadBot.CommitProposal :=
      { id := o.nextId
        content := content
        proposedBy := match member? with
          | some m => .member m.id
          | none => .orchestrator
        proposedByName := if member?.isSome then proposerName else "Squad Bot"
        origin := origin
        status := "pending"
        createdAt := o.now
        resolvedAt := none
        consensusMode := o.consensusMode
        timeoutSeconds := 300 }
    let o := { o with nextId := o.nextId + 1, db := addCommit o.db proposal squadId }
    let announcement :=
      if origin = "agent_nominated" then
        s!"**{proposerName}** proposes to commit: {content}"
      else
        s!"**Squad Bot** detected convergence: {content}"
    let (sysMsg, o) := pushMessage o .orchestrator "Squad Bot" "orchestrator"
      announcement none squadId
    let o := broadcast o "new_message" (.newMessage sysMsg) squadId
    let o := broadcast o "commit_proposed" (.commitProposed proposal) squadId
    (.ok proposal.id, o)

/-- `_resolve_commit(commit_id, status, announcement, squad_id)`. -/
def resolveCommit (o : Orchestrator) (commitId : Nat) (status announcement : String)
    (squadId : String) : Orchestrator :=
  let o := { o with db := updateCommitStatus o.db commitId status (some o.now) }
  let (sysMsg, o) := pushMessage o .orchestrator "Squad Bot" "orchestrator"
    announcement none squadId
  let o := broadcast o "new_message" (.newMessage sysMsg) squadId
  broadcast o "commit_resolved" (.commitResolved commitId status) squadId

/-- `_commit_to_context(proposal, squad_id)`: the entry is written to the
caller's squad. -/
def commitToContext (o : Orchestrator) (proposal : SquadBot.CommitProposal)
    (squadId : String) : Orchestrator :=
  let entry0 : SquadBot.ContextEntry :=
    ⟨o.nextId, proposal.content, o.now, proposal.proposedByName, proposal.origin,
      proposal.id, 0⟩
  let o := { o with nextId := o.nextId + 1 }
  let stored := addContextEntry o.db entry0 squadId
  let o := { o with db := stored.2 }
  let o := resolveCommit o proposal.id "approved"
    s!"Committed to context (v{stored.1.version}): {proposal.content}" squadId
  broadcast o "context_updated" (.contextUpdated stored.1) squadId

/-- `_evaluate_consensus(commit_id, squad_id)`: the proposal and its votes
are fetched by id alone; only the active-member count is squad-scoped. -/
def evaluateConsensus (o : Orchestrator) (commitId : Nat) (squadId : String) :
    SquadBot.ConsensusResult × Orchestrator :=
  match getCommit o.db commitId with
  | none => (.decided "error" "proposal_missing", o)
  | some proposal =>
    let votes := getVotesForCommit o.db commitId
    let totalEligible := (getActiveMembers o.db squadId).length
    let totalVoted := votes.length
    let approvals := (votes.filter (fun v => v.choice == "approve")).length
    let rejections := (votes.filter (fun v => v.choice == "reject")).length
    let humanRejections := votes.filter (fun v =>
      v.choice == "reject" && v.isHumanOverride)
    if humanRejections ≠ [] then
      let names := String.intercalate ", " (humanRejections.map (fun v => v.voterName))
      (.decided "rejected" "human_veto",
        resolveCommit o commitId "rejected"
          s!"Commit {commitId} rejected, human veto by {names}" squadId)
    else if proposal.consensusMode = "unanimous" then
      if rejections > 0 then
        (.decided "rejected" "not_unanimous",
          resolveCommit o commitId "rejected"
            s!"Commit {commitId} rejected (unanimous required, got {rejections} rejections)"
            squadId)
      else if approvals = totalEligible then
        (.decided "approved" "unanimous", commitToContext o proposal squadId)
      else
        (.pending totalVoted totalEligible approvals rejections, o)
    else if proposal.consensusMode = "majority" then
      if totalVoted ≥ totalEligible then
        if 2 * approvals > totalEligible then
          (.decided "approved" s!"majority ({approvals}/{totalEligible})",
            commitToContext o proposal squadId)
        else
          (.decided "rejected" "no_majority",
            resolveCommit o commitId "rejected"
              s!"Commit {commitId} rejected ({approvals}/{totalEligible} approved, majority needed)"
              squadId)
      else if 2 * approvals > totalEligible then
        (.decided "approved" s!"early_majority ({approvals}/{totalEligible})",
          commitToContext o proposal squadId)
      else
        (.pending totalVoted totalEligible approvals rejections, o)
    else if proposal.consensusMode = "no_objection" then
      if rejections > 0 then
        (.decided "rejected" "objection_raised",
          resolveCommit o commitId "rejected"
            s!"Commit {commitId} rejected (objection raised)" squadId)
      else
        (.pending totalVoted totalEligible approvals rejections, o)
    else
      (.pending totalVoted totalEligible approvals rejections, o)

/-- `vote(voter_name, commit_id, choice, is_human_override, squad_id)`. -/
def vote (o : Orchestrator) (voterName : String) (commitId : Nat) (choice : String)
    (isHumanOverride : Bool) (squadId : String) :
    SquadBot.CallResult (SquadBot.Vote × SquadBot.ConsensusResult) × Orchestrator :=
  match getMemberByName o.db voterName squadId with
  | none => (.err s!"{voterName} is not in the squad", o)
  | some member =>
    match getCommit o.db commitId with
    | none => (.err s!"Commit {commitId} not found", o)
    | some proposal =>
      if proposal.status ≠ "pending" then
        (.err s!"Commit {commitId} is already {proposal.status}", o)
      else if choice ≠ "approve" ∧ choice ≠ "reject" ∧ choice ≠ "abstain" then
        (.err "Choice must be approve, reject, or abstain", o)
      else
        let v : SquadBot.Vote := ⟨o.nextId, commitId, member.id, voterName, choice,
          isHumanOverride, o.now⟩
        let o := { o with nextId := o.nextId + 1, db := addVote o.db v squadId }
        let (sysMsg, o) := pushMessage o .orchestrator "Squad Bot" "system"
          s!"**{voterName}** voted **{choice}** on commit {commitId}" none squadId
        let o := broadcast o "new_message" (.newMessage sysMsg) squadId
        let o := broadcast o "vote_cast" (.voteCast v) squadId
        let result := evaluateConsensus o commitId squadId
        (.ok (v, result.1), result.2)

end SquadServer

namespace SquadServer

/-- Result of `_evaluate_consensus` depends only on the proposal, vote and
member tables — squad settings and the security log play no part. -/
theorem evaluate_result_congr {o o2 : Orchestrator}
    (hc : o2.db.commits = o.db.commits) (hv : o2.db.votes = o.db.votes)
    (hm : o2.db.members = o.db.members) (pid : Nat) (squadId : String) :
    (evaluateConsensus o2 pid squadId).1 = (evaluateConsensus o pid squadId).1 := by
  have hg : getCommit o2.db pid = getCommit o.db pid := by
    unfold getCommit
    rw [hc]
  have hv2 : getVotesForCommit o2.db pid = getVotesForCommit o.db pid := by
    unfold getVotesForCommit
    rw [hv]
  have hm2 : getActiveMembers o2.db squadId = getActiveMembers o.db squadId := by
    unfold getActiveMembers
    rw [hm]
  unfold evaluateConsensus
  rw [hg, hv2, hm2]
  cases hgc : getCommit o.db pid with
  | none => rfl
  | some p =>
    simp only []
    split_ifs <;> rfl

/-- `update_squad_settings` touches only the squad table and the security
log: the proposal, vote and member tables and the orchestrator's own
consensus mode are untouched. -/
theorem updateSquadSettings_frame (o : Orchestrator) (squadId : String)
    (adminId : Nat) (st : SquadSettings) :
    (updateSquadSettings o squadId adminId st).2.db.commits = o.db.commits ∧
      (updateSquadSettings o squadId adminId st).2.db.votes = o.db.votes ∧
      (updateSquadSettings o squadId adminId st).2.db.members = o.db.members ∧
      (updateSquadSettings o squadId adminId st).2.consensusMode =
        o.consensusMode := by
  simp only [updateSquadSettings]
  by_cases h1 : (!isAdmin o.db squadId adminId) = true
  · rw [if_pos h1]
    exact ⟨rfl, rfl, rfl, rfl⟩
  · rw [if_neg h1]
    by_cases h2 : st.noRec = true
    · rw [if_pos h2]
      exact ⟨rfl, rfl, rfl, rfl⟩
    · rw [if_neg h2]
      have hupd : (updateSquad o.db squadId st).2 =
          { o.db with squads := o.db.squads.map (fun s =>
              if s.id = squadId then applySettings s st else s) } := by
        unfold updateSquad
        rw [if_neg h2]
      by_cases h3 : (updateSquad o.db squadId st).1 = true
      · rw [if_pos h3]
        refine ⟨?_, ?_, ?_, ?_⟩ <;> simp [logSecurityEvent, hupd]
      · rw [if_neg h3]
        refine ⟨?_, ?_, ?_, ?_⟩ <;> simp [hupd]

end SquadServer

/-- C6 (amended): `propose_commit` stores the orchestrator's constructor
consensus mode (`self.consensus_mode`) and the dataclass-default timeout of
300 on the proposal at creation — not the squad's own setting; and a later
`update_squad_settings` touches only the squad table and security log, so it
changes neither the stored proposal nor the result of evaluating it. -/
theorem c6_captured_mode_immune_to_settings :
    (∀ (o : SquadServer.Orchestrator) (proposer content origin squadId : String),
      ((SquadServer.getMemberByName o.db proposer squadId).isSome = true ∨
        origin = "orchestrator_detected") →
      ∃ row : SquadServer.CommitRow,
        (SquadServer.proposeCommit o proposer content origin squadId).2.db.commits =
            o.db.commits ++ [row] ∧
          (SquadServer.proposeCommit o proposer content origin squadId).1 =
            .ok row.proposal.id ∧
          row.squadId = squadId ∧
          row.proposal.status = "pending" ∧
          row.proposal.consensusMode = o.consensusMode ∧
          row.proposal.timeoutSeconds = 300) ∧
    (∀ (o : SquadServer.Orchestrator) (squadId : String) (adminId : Nat)
        (st : SquadServer.SquadSettings),
      (SquadServer.updateSquadSettings o squadId adminId st).2.db.commits =
          o.db.commits ∧
        (SquadServer.updateSquadSettings o squadId adminId st).2.db.votes =
          o.db.votes ∧
        ∀ (pid : Nat) (sid2 : String),
          (SquadServer.evaluateConsensus
              (SquadServer.updateSquadSettings o squadId adminId st).2 pid sid2).1 =
            (SquadServer.evaluateConsensus o pid sid2).1) := by
  constructor
  · intro o proposer content origin squadId hsucc
    have hcond : ¬((SquadServer.getMemberByName o.db proposer squadId).isNone = true ∧
        origin ≠ "orchestrator_detected") := by
      rcases hsucc with h1 | h1
      · intro hcontra
        rw [Option.isNone_iff_eq_none] at hcontra
        rw [Option.isSome_iff_exists] at h1
        rcases h1 with ⟨x, hx⟩
        rw [hx] at hcontra
        exact Option.noConfusion hcontra.1
      · intro hcontra
        exact hcontra.2 h1
    refine ⟨⟨{ id := o.nextId
               content := content
               proposedBy := match SquadServer.getMemberByName o.db proposer squadId with
                 | some m => .member m.id
                 | none => .orchestrator
               proposedByName :=
                 if (SquadServer.getMemberByName o.db proposer squadId).isSome then
                   proposer
                 else "Squad Bot"
               origin := origin
               status := "pending"
               createdAt := o.now
               resolvedAt := none
               consensusMode := o.consensusMode
               timeoutSeconds := 300 }, squadId⟩, ?_, ?_, rfl, rfl, rfl, rfl⟩ <;>
      simp only [SquadServer.proposeCommit, if_neg hcond, SquadServer.pushMessage,
        SquadServer.broadcast, SquadServer.addCommit, SquadServer.addMessage] <;>
      rfl
  · intro o squadId adminId st
    obtain ⟨hc, hv, hm, _⟩ :=
      SquadServer.updateSquadSettings_frame o squadId adminId st
    exact ⟨hc, hv, fun pid sid2 =>
      SquadServer.evaluate_result_congr hc hv hm pid sid2⟩

/-- A concrete state refuting C6 as stated: the squad's own consensus mode
is `unanimous` while the orchestrator was constructed with `majority`. -/
def mismatchState : SquadServer.Orchestrator :=
  { db :=
      { squads := [⟨"A", "Squad A", "unanimous", 24, "single_session", 0, "c", true⟩]
        members := [⟨⟨1, "Ava", "claude", 0, true, none⟩, "A"⟩]
        messages := []
        contextEntries := []
        commits := []
        votes := []
        memberRoles := []
        securityLog := [] }
    consensusMode := "majority"
    events := []
    nextId := 20
    now := 5 }

/-- Counterexample to C6 as stated: in `mismatchState` the squad's current
consensus mode is `unanimous`, yet the proposal `propose_commit` creates is
stored with consensus mode `majority` (the orchestrator's constructor
value) — `propose_commit` does not store the squad's current mode. -/
theorem c6_counterexample_mode_not_squads :
    (SquadServer.getSquad mismatchState.db "A").map (fun s => s.consensusMode) =
        some "unanimous" ∧
      (SquadServer.getCommit
          (SquadServer.proposeCommit mismatchState "Ava" "ship it"
            "agent_nominated" "A").2.db 20).map (fun p => p.consensusMode) =
        some "majority" ∧
      (SquadServer.getCommit
          (SquadServer.proposeCommit mismatchState "Ava" "ship it"
            "agent_nominated" "A").2.db 20).map (fun p => p.consensusMode) ≠
        (SquadServer.getSquad mismatchState.db "A").map (fun s => s.consensusMode) := by
  refine ⟨rfl, rfl, ?_⟩
  decide

/-- Witness for C6 (amended), at `mismatchState`: the stored row carries
mode `majority` (= the constructor value) and timeout 300. -/
theorem c6_captured_mode_immune_to_settings_witness :
    ((SquadServer.getMemberByName mismatchState.db "Ava" "A").isSome = true ∨
      ("agent_nominated" : String) = "orchestrator_detected") ∧
      ∃ row : SquadServer.CommitRow,
        (SquadServer.proposeCommit mismatchState "Ava" "ship it" "agent_nominated"
            "A").2.db.commits = mismatchState.db.commits ++ [row] ∧
          (SquadServer.proposeCommit mismatchState "Ava" "ship it" "agent_nominated"
            "A").1 = .ok row.proposal.id ∧
          row.squadId = "A" ∧
          row.proposal.status = "pending" ∧
          row.proposal.consensusMode = mismatchState.consensusMode ∧
          row.proposal.timeoutSeconds = 300 :=
  ⟨Or.inl (by decide),
    c6_captured_mode_immune_to_settings.1 mismatchState "Ava" "ship it"
      "agent_nominated" "A" (Or.inl (by decide))⟩

/-- A concrete two-squad state: Ava is the only (active) member of squad A;
squad B holds the only proposal (id 10), pending in majority mode. -/
def crossState : SquadServer.Orchestrator :=
  { db :=
      { squads := [⟨"A", "Squad A", "majority", 24, "single_session", 0, "c", true⟩,
          ⟨"B", "Squad B", "majority", 24, "single_session", 0, "c", true⟩]
        members := [⟨⟨1, "Ava", "claude", 0, true, none⟩, "A"⟩]
        messages := []
        contextEntries := []
        commits := [⟨⟨10, "squad B secret decision", .member 99, "Bea",
          "agent_nominated", "pending", 0, none, "majority", 300⟩, "B"⟩]
        votes := []
        memberRoles := []
        securityLog := [] }
    consensusMode := "majority"
    events := []
    nextId := 20
    now := 5 }

/-- C8, evaluated at the failing input: a `vote` call scoped to squad A,
cast by squad A's only member on squad B's proposal id, succeeds, resolves
squad B's stored proposal to `approved`, and writes squad B's content into
squad A's context ledger — `get_commit` and `get_votes_for_commit` carry no
squad filter, so the call mutates another squad's state. -/
theorem c8_cross_squad_vote_mutates_other_squad :
    crossState.db.commits.map (fun r => (r.squadId, r.proposal.status)) =
        [("B", "pending")] ∧
      SquadServer.getContext crossState.db "A" = [] ∧
      ((SquadServer.vote crossState "Ava" 10 "approve" false "A").2.db.commits.map
        (fun r => (r.squadId, r.proposal.status))) = [("B", "approved")] ∧
      ((SquadServer.vote crossState "Ava" 10 "approve" false
          "A").2.db.contextEntries.map
        (fun r => (r.squadId, r.entry.content))) =
        [("A", "squad B secret decision")] := by
  refine ⟨rfl, rfl, ?_, ?_⟩ <;> decide

/-- A concrete state for the C1 witness: three active members in unanimous
mode, a pending proposal, and every member other than Ava has already voted
`approve`. -/
def vetoState : SquadBot.Orchestrator :=
  { db :=
      { members := [⟨0, "Ava", "claude", 0, true⟩, ⟨1, "Ben", "gpt", 0, true⟩,
          ⟨2, "Cy", "gemini", 0, true⟩]
        messages := []
        contextEntries := []
        commits := [⟨10, "ship it", .member 1, "Ben", "agent_nominated", "pending",
          0, none, "unanimous", 300⟩]
        votes := [⟨20, 10, 1, "Ben", "approve", false, 0⟩,
          ⟨21, 10, 2, "Cy", "approve", false, 0⟩] }
    consensusMode := "unanimous"
    events := []
    nextId := 30
    now := 5 }

/-- Witness for C1: in `vetoState` every other active member has voted
`approve`, yet Ava's human-override `reject` resolves the proposal
`rejected` with reason `human_veto`. -/
theorem c1_human_veto_witness :
    SquadBot.getMemberByName vetoState.db "Ava" = some ⟨0, "Ava", "claude", 0, true⟩ ∧
      SquadBot.getCommit vetoState.db 10 =
        some ⟨10, "ship it", .member 1, "Ben", "agent_nominated", "pending",
          0, none, "unanimous", 300⟩ ∧
      (∀ v ∈ SquadBot.getVotesForCommit vetoState.db 10, v.choice = "approve") ∧
      ((SquadBot.vote vetoState "Ava" 10 "reject" true).1 =
          .ok (⟨30, 10, 0, "Ava", "reject", true, 5⟩,
            .decided "rejected" "human_veto") ∧
        SquadBot.statusOf (SquadBot.vote vetoState "Ava" 10 "reject" true).2 10 =
          some "rejected") :=
  ⟨rfl, rfl, by decide,
    c1_human_veto vetoState "Ava" 10 ⟨0, "Ava", "claude", 0, true⟩
      ⟨10, "ship it", .member 1, "Ben", "agent_nominated", "pending",
        0, none, "unanimous", 300⟩ rfl rfl rfl⟩

/-- Witness for C4 at a concrete input: three appends on an empty database
yield versions `[1, 2, 3]`, `currentVersion = 3`, and an ascending `readAll`. -/
theorem c4_ledger_versions_witness :
    (⟨[], [], [], [], []⟩ : SquadBot.SquadDatabase).contextEntries = [] ∧
      ((SquadBot.appendEntries ⟨[], [], [], [], []⟩
          [⟨7, "a", 0, "Ava", "agent_nominated", 3, 0⟩,
           ⟨8, "b", 0, "Ben", "agent_nominated", 4, 0⟩,
           ⟨9, "c", 0, "Cy", "agent_nominated", 5, 0⟩]).contextEntries.map
            (fun e => e.version) = List.range' 1 3 ∧
        SquadBot.getContextVersion (SquadBot.appendEntries ⟨[], [], [], [], []⟩
          [⟨7, "a", 0, "Ava", "agent_nominated", 3, 0⟩,
           ⟨8, "b", 0, "Ben", "agent_nominated", 4, 0⟩,
           ⟨9, "c", 0, "Cy", "agent_nominated", 5, 0⟩]) = 3 ∧
        SquadBot.getContext (SquadBot.appendEntries ⟨[], [], [], [], []⟩
          [⟨7, "a", 0, "Ava", "agent_nominated", 3, 0⟩,
           ⟨8, "b", 0, "Ben", "agent_nominated", 4, 0⟩,
           ⟨9, "c", 0, "Cy", "agent_nominated", 5, 0⟩]) =
          (SquadBot.appendEntries ⟨[], [], [], [], []⟩
            [⟨7, "a", 0, "Ava", "agent_nominated", 3, 0⟩,
             ⟨8, "b", 0, "Ben", "agent_nominated", 4, 0⟩,
             ⟨9, "c", 0, "Cy", "agent_nominated", 5, 0⟩]).contextEntries ∧
        List.Sorted (fun a b : SquadBot.ContextEntry => a.version ≤ b.version)
          (SquadBot.getContext (SquadBot.appendEntries ⟨[], [], [], [], []⟩
            [⟨7, "a", 0, "Ava", "agent_nominated", 3, 0⟩,
             ⟨8, "b", 0, "Ben", "agent_nominated", 4, 0⟩,
             ⟨9, "c", 0, "Cy", "agent_nominated", 5, 0⟩]))) :=
  ⟨rfl, c4_ledger_versions ⟨[], [], [], [], []⟩ rfl _⟩
